import Mathlib

/-!
Verification of the Islamic inheritance calculator: a shallow embedding of
`heir_detector.py` and `heritage_calculator.py` together with proofs about it.

Conventions of the embedding:
* Python strings are `String` / `List Char`; Python's `Fraction` is `ℚ`
  (both are exact rationals).
* Python object mutation over a list of heirs becomes pure list
  transformation: mutating every matching element is a `List.map` with a
  conditional update, and mutating the first matching element
  (Python's `next(...)`) is `updateFirst`.
* Python's `re` module is embedded by a small backtracking regular-expression
  engine (`RE`) covering exactly the constructs the source uses: literals,
  `\d+`, `\s` / `\s*` / `\s+`, ordered alternation, the word boundary `\b`,
  negative lookahead `(?!...)` and fixed-width negative lookbehind `(?<!...)`.
  Match preference is Python's: leftmost position first, alternatives in
  written order, quantifiers greedy.  `\d` is embedded as ASCII digits,
  `\s` as ASCII whitespace, and `\w` (for `\b`) as ASCII alphanumerics,
  underscore, the Arabic letter block U+0621–U+064A and the Arabic-Indic
  digits U+0660–U+0669; on the Arabic/ASCII texts this program handles these
  agree with Python's Unicode classes.
* `str.lower` is the character-wise `Char.toLower` (identity on Arabic,
  A–Z to a–z, as in Python on these alphabets).
-/

namespace Mawarith

/-- Heir record, embedding the `Heir` dataclass of `heir_detector.py`
(fields `name`, `relation`, `gender`, `count`, `is_blocked`, `share`). -/
structure Heir where
  name : String
  relation : String
  gender : String
  count : Nat := 1
  is_blocked : Bool := false
  share : ℚ := 0
deriving DecidableEq, Repr

/-- Helper for Python's substring test: does `s` start with `pat`? -/
def startsWith : List Char → List Char → Bool
  | [], _ => true
  | _ :: _, [] => false
  | p :: ps, c :: cs => p == c && startsWith ps cs

/-- Python's `pat in s` substring containment, over character lists. -/
def hasSub (pat : List Char) : List Char → Bool
  | [] => startsWith pat []
  | c :: cs => startsWith pat (c :: cs) || hasSub pat cs

/-- Python `str.lower()` applied to the input text, character-wise.
Identity on Arabic script; maps ASCII A–Z to a–z. -/
def toLowerL (s : String) : List Char := s.data.map Char.toLower

/-- Character class of Python's `\d`, as used in the source's patterns
(the concrete inputs treated here contain only ASCII digits, if any). -/
def isDigitCh (c : Char) : Bool := c.isDigit

/-- Character class of Python's `\s` (ASCII whitespace suffices here). -/
def isSpaceCh (c : Char) : Bool := c.isWhitespace

/-- Character class of Python's `\w`, used to decide word boundaries `\b`:
ASCII alphanumerics, underscore, Arabic letters U+0621–U+064A and
Arabic-Indic digits U+0660–U+0669. -/
def isWordCh (c : Char) : Bool :=
  c.isAlphanum || c == '_' ||
  (0x621 ≤ c.toNat && c.toNat ≤ 0x64A) || (0x660 ≤ c.toNat && c.toNat ≤ 0x669)

/-- Abstract syntax of the regular-expression subset used by
`heir_detector.py` (see the module docstring). -/
inductive RE where
  /-- a literal run of characters -/
  | lit : List Char → RE
  /-- a single character of a class (`\d`, `\s`) -/
  | cls : (Char → Bool) → RE
  /-- one or more characters of a class, greedy (`\d+`, `\s+`) -/
  | plusCls : (Char → Bool) → RE
  /-- zero or more characters of a class, greedy (`\s*`) -/
  | starCls : (Char → Bool) → RE
  /-- concatenation -/
  | seq : RE → RE → RE
  /-- ordered alternation (`a|b`, `a` preferred) -/
  | alt : RE → RE → RE
  /-- word boundary `\b` -/
  | wordB : RE
  /-- negative lookahead `(?!r)` -/
  | nla : RE → RE
  /-- negative lookbehind `(?<!r)`; `r` must be fixed-width, as in Python -/
  | nlb : RE → RE

/-- Length of the longest prefix of `s` whose characters satisfy `p`. -/
def runLen (p : Char → Bool) : List Char → Nat
  | [] => 0
  | c :: cs => if p c then runLen p cs + 1 else 0

/-- Fixed width of a lookbehind pattern (the source's lookbehinds are
sequences of literals and single-character classes, so this is total
on the patterns that actually occur under `RE.nlb`). -/
def RE.lbWidth : RE → Nat
  | .lit cs => cs.length
  | .cls _ => 1
  | .seq a b => a.lbWidth + b.lbWidth
  | _ => 0

/-- Is the current position a word boundary?  `left` is the reversed prefix
of the text before the position, `s` the rest of the text. -/
def atBoundary (left s : List Char) : Bool :=
  (match left with | [] => false | c :: _ => isWordCh c) !=
  (match s with | [] => false | c :: _ => isWordCh c)

/-- All lengths of matches of the pattern at the current position, in the
backtracking engine's preference order (first = the match Python reports):
alternatives in written order, quantifiers longest first.  `left` is the
reversed prefix of the text before the position, `s` the rest. -/
def RE.mlens : RE → List Char → List Char → List Nat
  | .lit cs, _, s => if startsWith cs s then [cs.length] else []
  | .cls p, _, s =>
      match s with
      | [] => []
      | c :: _ => if p c then [1] else []
  | .plusCls p, _, s =>
      let k := runLen p s
      (List.range k).map (fun i => k - i)
  | .starCls p, _, s =>
      let k := runLen p s
      (List.range (k + 1)).map (fun i => k - i)
  | .seq a b, left, s =>
      ((a.mlens left s).map (fun la =>
        (b.mlens ((s.take la).reverse ++ left) (s.drop la)).map
          (fun lb => la + lb))).flatten
  | .alt a b, left, s => a.mlens left s ++ b.mlens left s
  | .wordB, left, s => if atBoundary left s then [0] else []
  | .nla r, left, s => if (r.mlens left s).isEmpty then [0] else []
  | .nlb r, left, _ =>
      let w := r.lbWidth
      if decide (w ≤ left.length) &&
         (r.mlens (left.drop w) ((left.take w).reverse)).contains w
      then [] else [0]

/-- One scan step of `re.finditer`: collect non-overlapping matches left to
right, taking at each position the engine's preferred match; a match
advances past its end (a zero-width match advances one character).
`fuel` bounds the number of steps (`s.length + 1` always suffices). -/
def findAllGo (r : RE) : List Char → List Char → Nat → List (List Char)
  | _, _, 0 => []
  | left, s, fuel + 1 =>
    match (r.mlens left s).head? with
    | some L =>
      if L == 0 then
        match s with
        | [] => [[]]
        | c :: rest => [] :: findAllGo r (c :: left) rest fuel
      else
        (s.take L) :: findAllGo r ((s.take L).reverse ++ left) (s.drop L) fuel
    | none =>
      match s with
      | [] => []
      | c :: rest => findAllGo r (c :: left) rest fuel

/-- Python `re.finditer(pattern, s)`: the list of matched substrings
(`match.group(0)` of each match), leftmost first. -/
def reFindAll (r : RE) (s : List Char) : List (List Char) :=
  findAllGo r [] s (s.length + 1)

/-- Helper for `reSearch`: try every start position. -/
def reSearchGo (r : RE) : List Char → List Char → Bool
  | left, [] => !(r.mlens left []).isEmpty
  | left, c :: rest =>
      !(r.mlens left (c :: rest)).isEmpty || reSearchGo r (c :: left) rest

/-- Python `bool(re.search(pattern, s))`: does the pattern match anywhere? -/
def reSearch (r : RE) (s : List Char) : Bool := reSearchGo r [] s

/-- A literal pattern from a string. -/
def rlit (s : String) : RE := RE.lit s.data

/-- Concatenation of a list of patterns. -/
def rseq : List RE → RE
  | [] => RE.lit []
  | [r] => r
  | r :: rs => RE.seq r (rseq rs)

/-- Ordered alternation of a list of patterns (empty list never matches). -/
def ralt : List RE → RE
  | [] => RE.cls (fun _ => false)
  | [r] => r
  | r :: rs => RE.alt r (ralt rs)

/-- `\s` -/
def rsp : RE := RE.cls isSpaceCh

/-- `\s*` -/
def rsps : RE := RE.starCls isSpaceCh

/-- `\s+` -/
def rspp : RE := RE.plusCls isSpaceCh

/-- `(\d+)` (the capture group is irrelevant to `match.group(0)`) -/
def rdig : RE := RE.plusCls isDigitCh

/-- `\b` -/
def rb : RE := RE.wordB

/-! Pattern tables of `HeirDetector._initialize_patterns`, one `RE` per
Python regex, in the source's order. -/

/-- The `'son'` pattern list. -/
def sonPatterns : List RE := [
  rseq [rdig, rsps, rlit "أبناء"],
  rseq [rdig, rsps, rlit "ابن"],
  rseq [ralt [rlit "ثلاثة", rlit "أربعة", rlit "خمسة", rlit "ستة",
              rlit "سبعة", rlit "ثمانية", rlit "تسعة", rlit "عشرة"],
        rsps, rlit "أبناء"],
  rseq [ralt [rlit "اثنان", rlit "اثنين"], rsps, rlit "من", rsps, rlit "الأبناء"],
  rlit "ولدان",
  rlit "ولدين",
  rseq [rb, rlit "وابنا", rb],
  rseq [rb, rlit "وابن", rb, RE.nla (rlit "ة"), RE.nla (rseq [rsp, rlit "عم"]),
        RE.nla (rseq [rsp, rlit "أخ"]), RE.nla (rseq [rsp, rlit "الابن"])],
  rseq [rlit "و", rspp, rlit "ابنا", rb],
  rseq [rlit "و", rspp, rlit "ابن", rb, RE.nla (rlit "ة"),
        RE.nla (rseq [rsp, rlit "عم"]), RE.nla (rseq [rsp, rlit "أخ"])],
  rseq [RE.nlb (rseq [rlit "بنت", rsp]), RE.nlb (rseq [rlit "ابن", rsp]),
        RE.nlb rsp, rb, rlit "ابن", rb, RE.nla (rlit "ة"),
        RE.nla (rseq [rsp, rlit "عم"]), RE.nla (rseq [rsp, rlit "أخ"]),
        RE.nla (rseq [rsp, rlit "الابن"])],
  rseq [rlit "ولد", RE.nla (rseq [rsp, rlit "ابن"])],
  rseq [rb, rlit "ولدا", rb]]

/-- The `'daughter'` pattern list. -/
def daughterPatterns : List RE := [
  rseq [rdig, rsps, rlit "بنات"],
  rseq [rdig, rsps, rlit "بنت"],
  rseq [ralt [rlit "ثلاث", rlit "أربع", rlit "خمس", rlit "ست",
              rlit "سبع", rlit "ثماني", rlit "تسع", rlit "عشر"],
        rsps, rlit "بنات"],
  rseq [ralt [rlit "اثنتان", rlit "اثنتين"], rsps, rlit "من", rsps, rlit "البنات"],
  rlit "بنتان",
  rlit "بنتين",
  rseq [rb, rlit "وبنتا", rb, RE.nla (rseq [rspp, rlit "ابن"]),
        RE.nla (rseq [rspp, rlit "بنت"])],
  rseq [rb, rlit "وبنت", rb, RE.nla (rseq [rspp, rlit "ابن"]),
        RE.nla (rseq [rspp, rlit "بنت"])],
  rseq [rlit "و", rspp, rlit "بنتا", rb, RE.nla (rseq [rspp, rlit "ابن"]),
        RE.nla (rseq [rspp, rlit "بنت"])],
  rseq [rlit "و", rspp, rlit "بنت", rb, RE.nla (rseq [rspp, rlit "ابن"]),
        RE.nla (rseq [rspp, rlit "بنت"])],
  rseq [rb, rlit "بنتا", rb, RE.nla (rseq [rspp, rlit "ابن"]),
        RE.nla (rseq [rspp, rlit "بنت"])],
  rseq [RE.nlb (rseq [rlit "بنت", rsp]), rb, rlit "بنت", rb,
        RE.nla (rseq [rspp, rlit "ابن"]), RE.nla (rseq [rspp, rlit "بنت"]),
        RE.nla (rseq [rspp, rlit "الابن"])]]

/-- The `'brother_full'` pattern list. -/
def brotherFullPatterns : List RE := [
  rseq [rdig, rsps, rlit "إخوة", rsps, rlit "أشقاء"],
  rseq [ralt [rlit "ثلاثة", rlit "أربعة"], rsps, rlit "إخوة", rsps, rlit "أشقاء"],
  rseq [ralt [rlit "أخوين", rlit "أخوان"], rsps, rlit "شقيقين"],
  rseq [rlit "أخ", rsps, rlit "شقيق"],
  rseq [rb, rlit "وأخا", rb, RE.nla (rseq [rsp, rlit "لأب"]),
        RE.nla (rseq [rsp, rlit "لأم"])],
  rseq [rb, rlit "وأخ", rb, RE.nla (rseq [rsp, rlit "لأب"]),
        RE.nla (rseq [rsp, rlit "لأم"])],
  rseq [rlit "و", rspp, rlit "أخا", rb, RE.nla (rseq [rsp, rlit "لأب"]),
        RE.nla (rseq [rsp, rlit "لأم"])],
  rseq [rlit "و", rspp, rlit "أخ", rb, RE.nla (rseq [rsp, rlit "لأب"]),
        RE.nla (rseq [rsp, rlit "لأم"])],
  rseq [rb, rlit "أخا", rb, RE.nla (rseq [rsp, rlit "لأب"]),
        RE.nla (rseq [rsp, rlit "لأم"])],
  rseq [RE.nlb (rseq [rlit "ابن", rsp]), rb, rlit "أخ", rb,
        RE.nla (rseq [rsp, rlit "لأب"]), RE.nla (rseq [rsp, rlit "لأم"])]]

/-- The `'sister_full'` pattern list. -/
def sisterFullPatterns : List RE := [
  rseq [rdig, rsps, rlit "أخوات", rsps, rlit "شقيقات"],
  rseq [ralt [rlit "أختين", rlit "أختان"], rsps, rlit "شقيقتين"],
  rseq [rlit "أخت", rsps, rlit "شقيقة"],
  rseq [rb, rlit "أختا", rb, RE.nla (rseq [rsp, rlit "لأب"]),
        RE.nla (rseq [rsp, rlit "لأم"])],
  rseq [rb, rlit "وأختا", rb, RE.nla (rseq [rsp, rlit "لأب"]),
        RE.nla (rseq [rsp, rlit "لأم"])],
  rseq [rb, rlit "وأخت", rb, RE.nla (rseq [rsp, rlit "لأب"]),
        RE.nla (rseq [rsp, rlit "لأم"])],
  rseq [rlit "و", rspp, rlit "أختا", rb, RE.nla (rseq [rsp, rlit "لأب"]),
        RE.nla (rseq [rsp, rlit "لأم"])],
  rseq [rlit "و", rspp, rlit "أخت", rb, RE.nla (rseq [rsp, rlit "لأب"]),
        RE.nla (rseq [rsp, rlit "لأم"])],
  rseq [RE.nlb (rseq [rlit "ابن", rsp]), rb, rlit "أخت", rb,
        RE.nla (rseq [rsp, rlit "لأب"]), RE.nla (rseq [rsp, rlit "لأم"])]]

/-- The grandfather patterns inlined in `detect_heirs` (step 6). -/
def grandfatherPatterns : List RE := [
  rseq [rb, rlit "جد", rb],
  rseq [rb, rlit "جدا", rb],
  rseq [rb, rlit "وجد", rb],
  rseq [rb, rlit "وجدا", rb],
  rseq [rlit "و", rspp, rlit "جد", rb],
  rseq [rlit "و", rspp, rlit "جدا", rb]]

/-- The father patterns inlined in `detect_heirs` (step 7). -/
def fatherPatterns : List RE := [
  rseq [rb, rlit "أب", rb],
  rseq [rb, rlit "أبا", rb],
  rseq [rb, rlit "وأب", rb],
  rseq [rb, rlit "وأبا", rb],
  rseq [rlit "و", rspp, rlit "أب", rb],
  rseq [rlit "و", rspp, rlit "أبا", rb]]

/-- The mother patterns inlined in `detect_heirs` (step 8). -/
def motherPatterns : List RE := [
  rseq [rb, rlit "أم", rb],
  rseq [rb, rlit "أما", rb],
  rseq [rb, rlit "وأم", rb],
  rseq [rb, rlit "وأما", rb],
  rseq [rlit "و", rspp, rlit "أم", rb],
  rseq [rlit "و", rspp, rlit "أما", rb]]

/-- The `'numbers'` word table, in the source's (insertion) order. -/
def numberWords : List (List Char × Nat) :=
  [("واحد".data, 1), ("واحدة".data, 1),
   ("اثنان".data, 2), ("اثنين".data, 2), ("اثنتان".data, 2), ("اثنتين".data, 2),
   ("ثلاثة".data, 3), ("ثلاث".data, 3),
   ("أربعة".data, 4), ("أربع".data, 4),
   ("خمسة".data, 5), ("خمس".data, 5),
   ("ستة".data, 6), ("ست".data, 6),
   ("سبعة".data, 7), ("سبع".data, 7),
   ("ثمانية".data, 8), ("ثماني".data, 8),
   ("تسعة".data, 9), ("تسع".data, 9),
   ("عشرة".data, 10), ("عشر".data, 10)]

/-- The dual forms recognized by `extract_number_from_text`'s last test. -/
def dualForms : List (List Char) :=
  ["ولدان".data, "ولدين".data, "بنتان".data, "بنتين".data,
   "اثنان".data, "اثنين".data, "اثنتان".data, "اثنتين".data]

/-- First maximal run of digits in `s`, if any (Python's
`re.search(r'\d+', ...)` followed by `int(...)`). -/
def firstDigitRun : List Char → Option (List Char)
  | [] => none
  | c :: cs => if c.isDigit then some (c :: cs.takeWhile Char.isDigit)
               else firstDigitRun cs

/-- Digit run to a number. -/
def digitsToNat (ds : List Char) : Nat :=
  ds.foldl (fun a c => a * 10 + (c.toNat - '0'.toNat)) 0

/-- `HeirDetector.extract_number_from_text`: a digit run wins, then the
first number word contained in the match, then the dual forms (→ 2),
else 1.  (The Python method also receives the whole text but never
reads it, so that argument is dropped.) -/
def extract_number_from_text (m : List Char) : Nat :=
  match firstDigitRun m with
  | some ds => digitsToNat ds
  | none =>
    match numberWords.find? (fun pr => hasSub pr.1 m) with
    | some pr => pr.2
    | none => if dualForms.any (fun w => hasSub w m) then 2 else 1

/-- Largest contributed count over all matches of all patterns, starting
from 0: the common body of `detect_sons` / `detect_daughters` /
`detect_brothers` / `detect_sisters`. -/
def maxMatchCount (pats : List RE) (tl : List Char) : Nat :=
  pats.foldl
    (fun acc p =>
      (reFindAll p tl).foldl (fun a m => max a (extract_number_from_text m)) acc)
    0

/-- `HeirDetector.detect_sons` (on the already lowercased text;
the Python method lowercases its argument, which is idempotent). -/
def detect_sons (tl : List Char) : Nat := maxMatchCount sonPatterns tl

/-- `HeirDetector.detect_daughters`. -/
def detect_daughters (tl : List Char) : Nat := maxMatchCount daughterPatterns tl

/-- `HeirDetector.detect_brothers(text, 'full')`. -/
def detect_brothers_full (tl : List Char) : Nat :=
  maxMatchCount brotherFullPatterns tl

/-- `HeirDetector.detect_sisters(text, 'full')`. -/
def detect_sisters_full (tl : List Char) : Nat :=
  maxMatchCount sisterFullPatterns tl

/-- `HeirDetector.detect_deceased_gender`: female verb markers first,
then male markers, then the spouse-word fallbacks, default male. -/
def detect_deceased_gender (tl : List Char) : String :=
  if ["توفيت".data, "ماتت".data, "توفت".data, "تاركة".data,
      "امرأة".data].any (fun w => hasSub w tl) then "أنثى"
  else if ["توفي".data, "مات".data, "توفى".data, "تاركا".data,
           "وترك".data, "رجل".data, "عن".data].any (fun w => hasSub w tl) then "ذكر"
  else if hasSub "زوجة".data tl then "ذكر"
  else if hasSub "زوج".data tl && !hasSub "زوجة".data tl then "أنثى"
  else "ذكر"

/-- Emission of `n` records of one kind: one unsuffixed record for a count
of 1, else records named `base 1`, `base 2`, …  (`detect_heirs` steps
2, 3, 9, 10, 11). -/
def mkMany (base rel gender : String) (n : Nat) : List Heir :=
  if n == 0 then []
  else if n == 1 then [{ name := base, relation := rel, gender := gender }]
  else (List.range n).map (fun i =>
    { name := base ++ " " ++ toString (i + 1), relation := rel, gender := gender })

/-- `HeirDetector.detect_heirs`: the full detection pipeline, emitting
heir records kind by kind in the source's order. -/
def detect_heirs (text : String) : List Heir :=
  let tl := toLowerL text
  let gender := detect_deceased_gender tl
  let spouse : List Heir :=
    if gender == "ذكر" then
      if ["زوجة".data, "زوجته".data, "وزوجة".data, "وزوجته".data].any
          (fun w => hasSub w tl) then
        [{ name := "الزوجة", relation := "الزوجة", gender := "أنثى" }]
      else []
    else
      if hasSub "زوج".data tl && !hasSub "زوجة".data tl then
        [{ name := "الزوج", relation := "الزوج", gender := "ذكر" }]
      else []
  let sons := mkMany "الابن" "الابن" "ذكر" (detect_sons tl)
  let daughters := mkMany "البنت" "البنت" "أنثى" (detect_daughters tl)
  let bintIbn : List Heir :=
    if reSearch (rseq [rlit "بنت", rspp, rlit "ابن"]) tl then
      [{ name := "بنت الابن", relation := "بنت_الابن", gender := "أنثى" }]
    else []
  let bintBint : List Heir :=
    if reSearch (rseq [rlit "بنت", rspp, rlit "بنت"]) tl then
      [{ name := "بنت البنت", relation := "بنت_البنت", gender := "أنثى" }]
    else []
  let grandfather : List Heir :=
    if grandfatherPatterns.any (fun p => reSearch p tl) &&
       !hasSub "جدة".data tl then
      [{ name := "الجد", relation := "الجد", gender := "ذكر" }]
    else []
  let father : List Heir :=
    if fatherPatterns.any (fun p => reSearch p tl) &&
       !hasSub "أبناء".data tl && !hasSub "لأب".data tl &&
       !reSearch (rseq [rlit "أخ", rsps, rlit "لأب"]) tl then
      [{ name := "الأب", relation := "الأب", gender := "ذكر" }]
    else []
  let mother : List Heir :=
    if motherPatterns.any (fun p => reSearch p tl) &&
       !hasSub "لأم".data tl then
      [{ name := "الأم", relation := "الأم", gender := "أنثى" }]
    else []
  let brothersFull := mkMany "الأخ الشقيق" "الأخ_الشقيق" "ذكر" (detect_brothers_full tl)
  let sistersFull := mkMany "الأخت الشقيقة" "الأخت_الشقيقة" "أنثى" (detect_sisters_full tl)
  let brothersPaternal : List Heir :=
    if reSearch (rseq [rlit "أخ", rspp, rlit "لأب"]) tl then
      mkMany "الأخ لأب" "الأخ_لأب" "ذكر" (extract_number_from_text "أخ لأب".data)
    else []
  let sistersPaternal : List Heir :=
    if reSearch (rseq [rlit "أخت", rspp, rlit "لأب"]) tl then
      mkMany "الأخت لأب" "الأخت_لأب" "أنثى" (extract_number_from_text "أخت لأب".data)
    else []
  spouse ++ sons ++ daughters ++ bintIbn ++ bintBint ++ grandfather ++
    father ++ mother ++ brothersFull ++ sistersFull ++
    brothersPaternal ++ sistersPaternal

/-! The share calculator, embedding `heritage_calculator.py`.  Mutation of
the heir list becomes pure list transformation; the derivation-trace and
step strings (`self.reasoning`, `self.steps`) are pure renderings of the
same computation and are not modelled. -/

/-- The relations of the non-blocked heirs (the `relations` list computed
at the top of `apply_hijab_rules` and in `check_umariyyatayn`). -/
def nonBlockedRels (hs : List Heir) : List String :=
  (hs.filter (fun h => !h.is_blocked)).map (fun h => h.relation)

/-- Sibling kinds blocked by rule 2 of `apply_hijab_rules`. -/
def rule2Kinds : List String :=
  ["الأخ_الشقيق", "الأخ_لأب", "الأخت_الشقيقة", "الأخت_لأب"]

/-- Set every heir satisfying `p` to blocked (a Python `for` loop that
mutates each matching element). -/
def blockIf (p : Heir → Bool) (hs : List Heir) : List Heir :=
  hs.map (fun h => if p h then { h with is_blocked := true } else h)

/-- Rule 1 of `apply_hijab_rules`: the grandfather is blocked when a
father is among the (initially) non-blocked relations. -/
def hijabRule1 (relations : List String) (hs : List Heir) : List Heir :=
  if decide ("الأب" ∈ relations) then
    blockIf (fun h => decide (h.relation = "الجد")) hs
  else hs

/-- The single blocker of rule 2: father, else son, else grandfather in
the father's absence (all read off the initial `relations` list). -/
def hijabBlocker (relations : List String) : Option String :=
  let has_father := decide ("الأب" ∈ relations)
  let has_son := decide ("الابن" ∈ relations)
  let has_grandfather := decide ("الجد" ∈ relations) && !has_father
  if has_father then some "الأب"
  else if has_son then some "الابن"
  else if has_grandfather then some "الجد"
  else none

/-- Rule 2 of `apply_hijab_rules`: when a blocker exists, the four full
and paternal sibling kinds are blocked. -/
def hijabRule2 (relations : List String) (hs : List Heir) : List Heir :=
  match hijabBlocker relations with
  | some _ => blockIf (fun h => decide (h.relation ∈ rule2Kinds)) hs
  | none => hs

/-- Rule 3 of `apply_hijab_rules`: paternal siblings are blocked by a
full brother. -/
def hijabRule3 (relations : List String) (hs : List Heir) : List Heir :=
  if decide ("الأخ_الشقيق" ∈ relations) then
    blockIf (fun h => decide (h.relation = "الأخ_لأب") ||
                      decide (h.relation = "الأخت_لأب")) hs
  else hs

/-- `HeritageCalculator.apply_hijab_rules`: the three exclusion rules in
order, all driven by the `relations` list computed once at entry. -/
def apply_hijab_rules (hs : List Heir) : List Heir :=
  let relations := nonBlockedRels hs
  hijabRule3 relations (hijabRule2 relations (hijabRule1 relations hs))

/-- Set equality of two relation lists (Python's `set(...) == set(...)`). -/
def relSetEq (a b : List String) : Bool :=
  a.all (fun x => decide (x ∈ b)) && b.all (fun x => decide (x ∈ a))

/-- `HeritageCalculator.check_umariyyatayn`. -/
def check_umariyyatayn (hs : List Heir) : Bool :=
  let relations := nonBlockedRels hs
  if !decide ("الأب" ∈ relations) then false
  else
    let case1 := relSetEq relations ["الزوجة", "الأب", "الأم"]
    let case2 := relSetEq relations ["الزوج", "الأب", "الأم"]
    (case1 || case2) && decide ((hs.filter (fun h => !h.is_blocked)).length = 3)

/-- `HeritageCalculator.solve_umariyyatayn`: assign the override shares
(the method also returns `Fraction(1, 1)`, threaded by
`calculate_fixed_shares` below). -/
def solve_umariyyatayn (hs : List Heir) : List Heir :=
  let relations := nonBlockedRels hs
  if decide ("الزوجة" ∈ relations) then
    hs.map (fun h =>
      if h.relation = "الزوجة" then { h with share := (1 : ℚ)/4 }
      else if h.relation = "الأم" then { h with share := (3 : ℚ)/4 / 3 }
      else if h.relation = "الأب" then { h with share := (3 : ℚ)/4 * 2 / 3 }
      else h)
  else
    hs.map (fun h =>
      if h.relation = "الزوج" then { h with share := (1 : ℚ)/2 }
      else if h.relation = "الأم" then { h with share := (1 : ℚ)/2 / 3 }
      else if h.relation = "الأب" then { h with share := (1 : ℚ)/2 * 2 / 3 }
      else h)

/-- The `has_children` predicate of `calculate_fixed_shares`. -/
def has_children_f (hs : List Heir) : Bool :=
  hs.any (fun h => (decide (h.relation = "الابن") || decide (h.relation = "البنت"))
                   && !h.is_blocked)

/-- The fard assigned to one (non-blocked) heir by the loop body of
`calculate_fixed_shares`, `none` when the loop assigns nothing.  The
mother's sibling count mirrors the source's substring test
`"أخ" in h.relation or "أخت" in h.relation` on the Arabic relation tags. -/
def fardShare (hs : List Heir) (hasC : Bool) (h : Heir) : Option ℚ :=
  if h.relation = "الزوجة" then
    some (if hasC then (1 : ℚ)/8 else (1 : ℚ)/4)
  else if h.relation = "الزوج" then
    some (if hasC then (1 : ℚ)/4 else (1 : ℚ)/2)
  else if h.relation = "البنت" then
    let nd := (hs.filter (fun x => decide (x.relation = "البنت") && !x.is_blocked)).length
    let ns := (hs.filter (fun x => decide (x.relation = "الابن") && !x.is_blocked)).length
    if ns = 0 then
      some (if nd = 1 then (1 : ℚ)/2 else (2 : ℚ)/3 / (nd : ℚ))
    else none
  else if h.relation = "الأب" then
    if hasC then some ((1 : ℚ)/6) else none
  else if h.relation = "الجد" then
    if hasC then some ((1 : ℚ)/6) else none
  else if h.relation = "الأم" then
    let nsib := (hs.filter (fun x =>
      (hasSub "أخ".data x.relation.data || hasSub "أخت".data x.relation.data)
      && !x.is_blocked)).length
    some (if hasC || decide (2 ≤ nsib) then (1 : ℚ)/6 else (1 : ℚ)/3)
  else none

/-- One step of the fard loop: a blocked heir is skipped, an assigned
fard overwrites the share. -/
def fardUpdate (hs : List Heir) (hasC : Bool) (h : Heir) : Heir :=
  if h.is_blocked then h
  else match fardShare hs hasC h with
    | some s => { h with share := s }
    | none => h

/-- `HeritageCalculator.calculate_fixed_shares`: the Umariyyatayn check
first (total 1), otherwise assign each non-blocked heir its fard and
return the accumulated total. -/
def calculate_fixed_shares (hs : List Heir) : List Heir × ℚ :=
  if check_umariyyatayn hs then (solve_umariyyatayn hs, 1)
  else
    (hs.map (fardUpdate hs (has_children_f hs)),
     ((hs.filter (fun h => !h.is_blocked)).filterMap
       (fun h => fardShare hs (has_children_f hs) h)).sum)

/-- Update the first element satisfying `p` (Python's
`next((h for h in ... if ...), None)` followed by mutation of that object). -/
def updateFirst (p : Heir → Bool) (f : Heir → Heir) : List Heir → List Heir
  | [] => []
  | h :: t => if p h then f h :: t else h :: updateFirst p f t

/-- Group-membership tests of `distribute_asaba`'s branches. -/
def isSonNB (h : Heir) : Bool := decide (h.relation = "الابن") && !h.is_blocked

/-- Non-blocked daughter who received no fard. -/
def isDaughterNB0 (h : Heir) : Bool :=
  decide (h.relation = "البنت") && !h.is_blocked && decide (h.share = 0)

/-- Non-blocked full brother. -/
def isFullBroNB (h : Heir) : Bool :=
  decide (h.relation = "الأخ_الشقيق") && !h.is_blocked

/-- Non-blocked full sister with no fard. -/
def isFullSisNB0 (h : Heir) : Bool :=
  decide (h.relation = "الأخت_الشقيقة") && !h.is_blocked && decide (h.share = 0)

/-- Non-blocked paternal brother. -/
def isPatBroNB (h : Heir) : Bool :=
  decide (h.relation = "الأخ_لأب") && !h.is_blocked

/-- Non-blocked paternal sister with no fard. -/
def isPatSisNB0 (h : Heir) : Bool :=
  decide (h.relation = "الأخت_لأب") && !h.is_blocked && decide (h.share = 0)

/-- The father/grandfather residue update: augment an existing fard or
take the whole residue. -/
def asabaAugment (remainder : ℚ) (h : Heir) : Heir :=
  if h.share > 0 then { h with share := h.share + remainder }
  else { h with share := remainder }

/-- `HeritageCalculator.distribute_asaba`: the five residue groups in
priority order; the first applicable branch performs all updates and
returns. -/
def distribute_asaba (hs : List Heir) (remainder : ℚ) : List Heir :=
  let sons := hs.filter isSonNB
  let daughters := hs.filter isDaughterNB0
  if !sons.isEmpty || !daughters.isEmpty then
    let total_units : ℚ := ((sons.length * 2 + daughters.length : Nat) : ℚ)
    let unit_share := remainder / total_units
    hs.map (fun h =>
      if isSonNB h then { h with share := unit_share * 2 }
      else if isDaughterNB0 h then { h with share := unit_share }
      else h)
  else if (hs.find? (fun h => decide (h.relation = "الأب") && !h.is_blocked)).isSome
          && remainder > 0 then
    updateFirst (fun h => decide (h.relation = "الأب") && !h.is_blocked)
      (asabaAugment remainder) hs
  else if (hs.find? (fun h => decide (h.relation = "الجد") && !h.is_blocked)).isSome
          && remainder > 0 then
    updateFirst (fun h => decide (h.relation = "الجد") && !h.is_blocked)
      (asabaAugment remainder) hs
  else
    let brothers_full := hs.filter isFullBroNB
    let sisters_full := hs.filter isFullSisNB0
    if !brothers_full.isEmpty || !sisters_full.isEmpty then
      let unit_share := remainder /
        ((brothers_full.length * 2 + sisters_full.length : Nat) : ℚ)
      hs.map (fun h =>
        if isFullBroNB h then { h with share := unit_share * 2 }
        else if isFullSisNB0 h then { h with share := unit_share }
        else h)
    else
      let brothers_paternal := hs.filter isPatBroNB
      let sisters_paternal := hs.filter isPatSisNB0
      if !brothers_paternal.isEmpty || !sisters_paternal.isEmpty then
        let unit_share := remainder /
          ((brothers_paternal.length * 2 + sisters_paternal.length : Nat) : ℚ)
        hs.map (fun h =>
          if isPatBroNB h then { h with share := unit_share * 2 }
          else if isPatSisNB0 h then { h with share := unit_share }
          else h)
      else hs

/-- `HeritageCalculator.calculate`, up to the final heir states: hijab,
then furūḍ (with the Umariyyatayn override inside), then — unless the
Umariyyatayn check holds on the updated heirs — the residue pass when
`1 - total` is strictly positive. -/
def calculate (hs : List Heir) : List Heir :=
  let hs1 := apply_hijab_rules hs
  let fs := calculate_fixed_shares hs1
  if !check_umariyyatayn fs.1 then
    let remainder := 1 - fs.2
    if remainder > 0 then distribute_asaba fs.1 remainder else fs.1
  else fs.1

/-- Python's `str(Fraction)`: `"num/den"`, except a whole number prints
without the denominator. -/
def fractionStr (q : ℚ) : String :=
  if q.den = 1 then toString q.num
  else toString q.num ++ "/" ++ toString q.den

/-- One value of the results mapping: the blocked sentinel `"محجوب"` or a
record carrying the rendered fraction and the relation tag.  (The
percentage field, a rounded `float`, is a rendering of the same exact
share and is not modelled.) -/
inductive ResVal where
  /-- the sentinel string `"محجوب"` -/
  | blockedSentinel : ResVal
  /-- the `{fraction, relation}` record -/
  | entry (fraction : String) (relation : String) : ResVal
deriving DecidableEq, Repr

/-- The `"النتائج"` mapping built at the end of `calculate`, in heir
order, keyed by display name. -/
def calculate_results (hs : List Heir) : List (String × ResVal) :=
  (calculate hs).map (fun h =>
    if h.is_blocked then (h.name, ResVal.blockedSentinel)
    else (h.name, ResVal.entry (fractionStr h.share) h.relation))

/-! The stateful surface of the two classes, for the determinism claim:
`HeirDetector` carries `detected_heirs` and `deceased_gender` across
calls, and `HeritageSystem` additionally a calculator. -/

/-- The mutable fields of a `HeirDetector` instance (its `patterns` table
is immutable after `__init__` and is global data here). -/
structure DetectorState where
  detected_heirs : List Heir
  deceased_gender : Option String
deriving DecidableEq, Repr

/-- `HeirDetector.detect_heirs` as the stateful method: it first resets
`self.detected_heirs` to `[]` and recomputes `self.deceased_gender`, so
nothing of the incoming state flows into the result. -/
def detect_heirs_s (st : DetectorState) (text : String) :
    DetectorState × List Heir :=
  let _ := st
  let hs := detect_heirs text
  ({ detected_heirs := hs,
     deceased_gender := some (detect_deceased_gender (toLowerL text)) }, hs)

/-- The result envelope of `HeritageSystem.solve` (the detection summary,
step list and reasoning strings are pure renderings of the same data). -/
inductive Envelope where
  /-- the `"error": "لم يتم اكتشاف أي ورثة"` outcome -/
  | errorNoHeirs : Envelope
  /-- the ordinary outcome with the `"النتائج"` mapping -/
  | ok (results : List (String × ResVal)) : Envelope
deriving DecidableEq, Repr

/-- The mutable fields of a `HeritageSystem` instance. -/
structure SystemState where
  detector : DetectorState
  calculator : Option (List Heir)
deriving DecidableEq, Repr

/-- `HeritageSystem.solve`: detect, then — unless no heir was found —
construct a fresh calculator over the detected heirs and calculate. -/
def solve_s (st : SystemState) (query : String) : SystemState × Envelope :=
  let d := detect_heirs_s st.detector query
  if d.2.isEmpty then
    ({ detector := d.1, calculator := st.calculator }, Envelope.errorNoHeirs)
  else
    ({ detector := d.1, calculator := some d.2 },
     Envelope.ok (calculate_results d.2))

/-! Derived notions used by the statements below. -/

/-- Sum of the share fields of a heir list. -/
def sumShares (hs : List Heir) : ℚ := (hs.map (fun h => h.share)).sum

/-- The relation kinds the calculator acts on: every relation tag that
any rule of `apply_hijab_rules`, `solve_umariyyatayn`, `fardShare` or
`distribute_asaba` matches against. -/
def actedKinds : List String :=
  ["الزوجة", "الزوج", "الابن", "البنت", "الأب", "الأم", "الجد",
   "الأخ_الشقيق", "الأخت_الشقيقة", "الأخ_لأب", "الأخت_لأب"]

/-- Index (1–5) of the residue group `distribute_asaba` serves, mirroring
its branch conditions in order; 0 when no group applies.  A later group
is reached only when every earlier branch condition fails. -/
def consumingGroup (hs : List Heir) (rem : ℚ) : Nat :=
  if !(hs.filter isSonNB).isEmpty || !(hs.filter isDaughterNB0).isEmpty then 1
  else if (hs.find? (fun h => decide (h.relation = "الأب") && !h.is_blocked)).isSome
          && rem > 0 then 2
  else if (hs.find? (fun h => decide (h.relation = "الجد") && !h.is_blocked)).isSome
          && rem > 0 then 3
  else if !(hs.filter isFullBroNB).isEmpty || !(hs.filter isFullSisNB0).isEmpty then 4
  else if !(hs.filter isPatBroNB).isEmpty || !(hs.filter isPatSisNB0).isEmpty then 5
  else 0

/-- Membership of a heir in residue group `n` of `distribute_asaba`. -/
def memberOfGroup : Nat → Heir → Bool
  | 1, h => isSonNB h || isDaughterNB0 h
  | 2, h => decide (h.relation = "الأب") && !h.is_blocked
  | 3, h => decide (h.relation = "الجد") && !h.is_blocked
  | 4, h => isFullBroNB h || isFullSisNB0 h
  | 5, h => isPatBroNB h || isPatSisNB0 h
  | _, _ => false

/-- How an heir record of the exclusion pass's output relates to the
input record it came from: all fields except `is_blocked` are unchanged,
and a newly set blocked flag only ever lands on the grandfather or the
four rule-2 sibling kinds. -/
def hijabTracked (y x : Heir) : Prop :=
  x.name = y.name ∧ x.relation = y.relation ∧ x.gender = y.gender ∧
  x.count = y.count ∧ x.share = y.share ∧
  (x.is_blocked = y.is_blocked ∨
    (x.is_blocked = true ∧ (x.relation = "الجد" ∨ x.relation ∈ rule2Kinds)))

end Mawarith

namespace Mawarith

/-! Helper lemmas about the calculator passes. -/

theorem relSetEq_mem_right {a b : List String} (h : relSetEq a b = true)
    {x : String} (hx : x ∈ b) : x ∈ a := by
  unfold relSetEq at h
  rw [Bool.and_eq_true] at h
  have := List.all_eq_true.mp h.2 x hx
  simpa using this

theorem relSetEq_mem_left {a b : List String} (h : relSetEq a b = true)
    {x : String} (hx : x ∈ a) : x ∈ b := by
  unfold relSetEq at h
  rw [Bool.and_eq_true] at h
  have := List.all_eq_true.mp h.1 x hx
  simpa using this

theorem check_umariyyatayn_of_cases {hs1 : List Heir}
    (h3 : ((hs1.filter (fun h => !h.is_blocked)).length = 3))
    (hcase : relSetEq (nonBlockedRels hs1) ["الزوجة", "الأب", "الأم"] = true ∨
             relSetEq (nonBlockedRels hs1) ["الزوج", "الأب", "الأم"] = true) :
    check_umariyyatayn hs1 = true := by
  have hab : "الأب" ∈ nonBlockedRels hs1 := by
    rcases hcase with hc | hc
    · exact relSetEq_mem_right hc (by simp)
    · exact relSetEq_mem_right hc (by simp)
  unfold check_umariyyatayn
  rcases hcase with hc | hc
  · simp [hab, hc, h3]
  · simp [hab, hc, h3]

theorem calculate_of_umariyyatayn {hs : List Heir}
    (hchk : check_umariyyatayn (apply_hijab_rules hs) = true) :
    calculate hs = solve_umariyyatayn (apply_hijab_rules hs) := by
  unfold calculate
  simp only [calculate_fixed_shares, hchk, if_true]
  norm_num

theorem solve_umariyyatayn_wife {hs1 : List Heir}
    (hw : "الزوجة" ∈ nonBlockedRels hs1) :
    ∀ h ∈ solve_umariyyatayn hs1,
      (h.relation = "الزوجة" → h.share = 1/4) ∧
      (h.relation = "الأم" → h.share = 1/4) ∧
      (h.relation = "الأب" → h.share = 1/2) := by
  intro h hmem
  unfold solve_umariyyatayn at hmem
  rw [if_pos (by simpa using hw)] at hmem
  obtain ⟨h0, -, rfl⟩ := List.mem_map.1 hmem
  split_ifs with e1 e2 e3 <;>
    refine ⟨fun hr => ?_, fun hr => ?_, fun hr => ?_⟩ <;>
    simp_all <;> norm_num

theorem solve_umariyyatayn_husband {hs1 : List Heir}
    (hw : "الزوجة" ∉ nonBlockedRels hs1) :
    ∀ h ∈ solve_umariyyatayn hs1,
      (h.relation = "الزوج" → h.share = 1/2) ∧
      (h.relation = "الأم" → h.share = 1/6) ∧
      (h.relation = "الأب" → h.share = 1/3) := by
  intro h hmem
  unfold solve_umariyyatayn at hmem
  rw [if_neg (by simpa using hw)] at hmem
  obtain ⟨h0, -, rfl⟩ := List.mem_map.1 hmem
  split_ifs with e1 e2 e3 <;>
    refine ⟨fun hr => ?_, fun hr => ?_, fun hr => ?_⟩ <;>
    simp_all <;> norm_num

/-- Claim C1: if, after the exclusion pass, exactly three heirs are
non-blocked and their kinds form {wife, father, mother}, the calculator
applies the first ʿUmariyya — wife 1/4, mother 1/4 (a third of the
residue after the spouse), father 1/2 — and no residue pass runs (the
furūḍ total is treated as 1); if they form {husband, father, mother},
the second ʿUmariyya — husband 1/2, mother 1/6, father 1/3 — likewise
with no residue pass. -/
theorem umariyyatayn_override (hs : List Heir)
    (h3 : ((apply_hijab_rules hs).filter (fun h => !h.is_blocked)).length = 3) :
    (relSetEq (nonBlockedRels (apply_hijab_rules hs))
        ["الزوجة", "الأب", "الأم"] = true →
      calculate hs = solve_umariyyatayn (apply_hijab_rules hs) ∧
      (calculate_fixed_shares (apply_hijab_rules hs)).2 = 1 ∧
      (∀ h ∈ calculate hs,
        (h.relation = "الزوجة" → h.share = 1/4) ∧
        (h.relation = "الأم" → h.share = 1/4) ∧
        (h.relation = "الأب" → h.share = 1/2))) ∧
    (relSetEq (nonBlockedRels (apply_hijab_rules hs))
        ["الزوج", "الأب", "الأم"] = true →
      calculate hs = solve_umariyyatayn (apply_hijab_rules hs) ∧
      (calculate_fixed_shares (apply_hijab_rules hs)).2 = 1 ∧
      (∀ h ∈ calculate hs,
        (h.relation = "الزوج" → h.share = 1/2) ∧
        (h.relation = "الأم" → h.share = 1/6) ∧
        (h.relation = "الأب" → h.share = 1/3))) := by
  constructor
  · intro hc
    have hchk := check_umariyyatayn_of_cases h3 (Or.inl hc)
    have hcal := calculate_of_umariyyatayn hchk
    refine ⟨hcal, by simp [calculate_fixed_shares, hchk], ?_⟩
    rw [hcal]
    exact solve_umariyyatayn_wife (relSetEq_mem_right hc (by simp))
  · intro hc
    have hchk := check_umariyyatayn_of_cases h3 (Or.inr hc)
    have hcal := calculate_of_umariyyatayn hchk
    refine ⟨hcal, by simp [calculate_fixed_shares, hchk], ?_⟩
    rw [hcal]
    have hnw : "الزوجة" ∉ nonBlockedRels (apply_hijab_rules hs) := by
      intro hmem
      have := relSetEq_mem_left hc hmem
      simp at this
    exact solve_umariyyatayn_husband hnw


/-! Lemmas about the detector's output. -/

theorem startsWith_map (f : Char → Char) {p s : List Char}
    (h : startsWith p s = true) : startsWith (p.map f) (s.map f) = true := by
  induction p generalizing s with
  | nil => simp [startsWith]
  | cons c cs ih =>
    cases s with
    | nil => simp [startsWith] at h
    | cons d ds =>
      simp only [List.map_cons, startsWith, Bool.and_eq_true] at h ⊢
      obtain ⟨h1, h2⟩ := h
      have hcd : c = d := by simpa using h1
      exact ⟨by simp [hcd], ih h2⟩

theorem hasSub_map (f : Char → Char) {p s : List Char}
    (h : hasSub p s = true) : hasSub (p.map f) (s.map f) = true := by
  induction s with
  | nil =>
    simp only [hasSub, List.map_nil] at h ⊢
    exact startsWith_map f h
  | cons c cs ih =>
    simp only [hasSub, List.map_cons, Bool.or_eq_true] at h ⊢
    rcases h with h | h
    · exact Or.inl (by simpa using startsWith_map f h)
    · exact Or.inr (ih h)

theorem mem_ite_nil {α : Type} {c : Prop} [Decidable c] {l : List α} {x : α}
    (h : x ∈ if c then l else []) : x ∈ l ∧ c := by
  by_cases hc : c
  · rw [if_pos hc] at h; exact ⟨h, hc⟩
  · rw [if_neg hc] at h; cases h

theorem mkMany_mem {base rel g : String} {n : Nat} {x : Heir}
    (h : x ∈ mkMany base rel g n) :
    x.relation = rel ∧ x.is_blocked = false ∧ x.share = 0 := by
  unfold mkMany at h
  split_ifs at h
  · cases h
  · rcases List.mem_singleton.mp h with rfl; exact ⟨rfl, rfl, rfl⟩
  · obtain ⟨i, -, rfl⟩ := List.mem_map.1 h; exact ⟨rfl, rfl, rfl⟩

theorem detect_heirs_mem {text : String} {x : Heir} (hm : x ∈ detect_heirs text) :
    x.is_blocked = false ∧ x.share = 0 ∧
    (x.relation = "الأب" →
      hasSub "أبناء".data (toLowerL text) = false ∧
      hasSub "لأب".data (toLowerL text) = false) := by
  unfold detect_heirs at hm
  simp only [List.mem_append] at hm
  rcases hm with
    ((((((((((hm | hm) | hm) | hm) | hm) | hm) | hm) | hm) | hm) | hm) | hm) | hm
  · split at hm <;>
    · obtain ⟨hm, -⟩ := mem_ite_nil hm
      rcases List.mem_singleton.mp hm with rfl
      exact ⟨rfl, rfl, fun hr => absurd hr (by decide)⟩
  · obtain ⟨hrel, hb, hsh⟩ := mkMany_mem hm
    exact ⟨hb, hsh, fun hr => absurd (hrel.symm.trans hr) (by decide)⟩
  · obtain ⟨hrel, hb, hsh⟩ := mkMany_mem hm
    exact ⟨hb, hsh, fun hr => absurd (hrel.symm.trans hr) (by decide)⟩
  · obtain ⟨hm, -⟩ := mem_ite_nil hm
    rcases List.mem_singleton.mp hm with rfl
    exact ⟨rfl, rfl, fun hr => absurd hr (by decide)⟩
  · obtain ⟨hm, -⟩ := mem_ite_nil hm
    rcases List.mem_singleton.mp hm with rfl
    exact ⟨rfl, rfl, fun hr => absurd hr (by decide)⟩
  · obtain ⟨hm, -⟩ := mem_ite_nil hm
    rcases List.mem_singleton.mp hm with rfl
    exact ⟨rfl, rfl, fun hr => absurd hr (by decide)⟩
  · obtain ⟨hm, hc⟩ := mem_ite_nil hm
    rcases List.mem_singleton.mp hm with rfl
    refine ⟨rfl, rfl, fun hr => ?_⟩
    simp only [Bool.and_eq_true, Bool.not_eq_true'] at hc
    exact ⟨hc.1.1.2, hc.1.2⟩
  · obtain ⟨hm, -⟩ := mem_ite_nil hm
    rcases List.mem_singleton.mp hm with rfl
    exact ⟨rfl, rfl, fun hr => absurd hr (by decide)⟩
  · obtain ⟨hrel, hb, hsh⟩ := mkMany_mem hm
    exact ⟨hb, hsh, fun hr => absurd (hrel.symm.trans hr) (by decide)⟩
  · obtain ⟨hrel, hb, hsh⟩ := mkMany_mem hm
    exact ⟨hb, hsh, fun hr => absurd (hrel.symm.trans hr) (by decide)⟩
  · obtain ⟨hm, -⟩ := mem_ite_nil hm
    obtain ⟨hrel, hb, hsh⟩ := mkMany_mem hm
    exact ⟨hb, hsh, fun hr => absurd (hrel.symm.trans hr) (by decide)⟩
  · obtain ⟨hm, -⟩ := mem_ite_nil hm
    obtain ⟨hrel, hb, hsh⟩ := mkMany_mem hm
    exact ⟨hb, hsh, fun hr => absurd (hrel.symm.trans hr) (by decide)⟩

/-- Claim C10: if the input text contains the substring أبناء or the
substring لأب anywhere, `detect_heirs` never emits a father heir, even
when a standalone father token also occurs, because the father branch
is guarded by both substring tests. -/
theorem father_suppressed (text : String)
    (hguard : hasSub "أبناء".data text.data = true ∨
              hasSub "لأب".data text.data = true) :
    ∀ h ∈ detect_heirs text, h.relation ≠ "الأب" := by
  intro h hm hrel
  obtain ⟨-, -, himp⟩ := detect_heirs_mem hm
  obtain ⟨h1, h2⟩ := himp hrel
  rcases hguard with hg | hg
  · have hml := hasSub_map Char.toLower hg
    rw [show (("أبناء".data.map Char.toLower) = "أبناء".data) from by decide] at hml
    rw [show ((text.data.map Char.toLower) = toLowerL text) from rfl] at hml
    simp [h1] at hml
  · have hml := hasSub_map Char.toLower hg
    rw [show (("لأب".data.map Char.toLower) = "لأب".data) from by decide] at hml
    rw [show ((text.data.map Char.toLower) = toLowerL text) from rfl] at hml
    simp [h2] at hml

/-- Witness for C10: a text carrying both a standalone father token أبا
and the qualifier لأب; no father heir is emitted. -/
theorem father_suppressed_witness :
    (hasSub "أبناء".data ("ترك أبا وأخا لأب" : String).data = true ∨
     hasSub "لأب".data ("ترك أبا وأخا لأب" : String).data = true) ∧
    (∀ h ∈ detect_heirs "ترك أبا وأخا لأب", h.relation ≠ "الأب") :=
  ⟨Or.inr (by decide),
   father_suppressed "ترك أبا وأخا لأب" (Or.inr (by decide))⟩

/-- Claim C8: the pipeline is deterministic.  The detector resets its
mutable fields on every call and the system builds a fresh calculator,
so the emitted heirs, the resulting detector state and the result
envelope depend only on the query, never on the incoming object state
of an earlier run. -/
theorem pipeline_deterministic (d₁ d₂ : DetectorState) (s₁ s₂ : SystemState)
    (query : String) :
    (detect_heirs_s d₁ query).2 = (detect_heirs_s d₂ query).2 ∧
    (detect_heirs_s d₁ query).1 = (detect_heirs_s d₂ query).1 ∧
    (solve_s s₁ query).2 = (solve_s s₂ query).2 := by
  refine ⟨rfl, rfl, ?_⟩
  simp only [solve_s, detect_heirs_s]
  split <;> rfl



/-! Tracking lemmas for the exclusion pass. -/

theorem blockIf_mem_track (p : Heir → Bool) {hs : List Heir} {x : Heir}
    (h : x ∈ blockIf p hs) :
    ∃ y ∈ hs, (x = y ∧ p y = false) ∨
              (x = { y with is_blocked := true } ∧ p y = true) := by
  obtain ⟨y, hy, hxy⟩ := List.mem_map.1 h
  by_cases hp : p y = true
  · exact ⟨y, hy, Or.inr ⟨by rw [← hxy, if_pos hp], hp⟩⟩
  · exact ⟨y, hy, Or.inl ⟨by rw [← hxy, if_neg hp], by simpa using hp⟩⟩

theorem blockIf_blocks (q : String → Bool) {hs : List Heir} {x : Heir}
    (h : x ∈ blockIf (fun h => q h.relation) hs) (hq : q x.relation = true) :
    x.is_blocked = true := by
  obtain ⟨y, -, ⟨rfl, hpf⟩ | ⟨rfl, -⟩⟩ :=
    blockIf_mem_track (fun h => q h.relation) h
  · exact absurd hq (by simp only [hpf]; simp)
  · rfl

theorem blockIf_untouched (q : String → Bool) {hs : List Heir} {x : Heir}
    (h : x ∈ blockIf (fun h => q h.relation) hs) (hq : q x.relation = false) :
    x ∈ hs := by
  obtain ⟨y, hy, ⟨rfl, -⟩ | ⟨rfl, hp⟩⟩ :=
    blockIf_mem_track (fun h => q h.relation) h
  · exact hy
  · exact absurd hp (by simpa using hq)

theorem hijabBlocker_isSome {relations : List String}
    (h : "الأب" ∈ relations ∨ "الابن" ∈ relations ∨
         ("الجد" ∈ relations ∧ "الأب" ∉ relations)) :
    ∃ b, hijabBlocker relations = some b := by
  unfold hijabBlocker
  by_cases hf : "الأب" ∈ relations
  · simp [hf]
  · by_cases hson : "الابن" ∈ relations
    · simp [hf, hson]
    · by_cases hgf : "الجد" ∈ relations
      · simp [hf, hson, hgf]
      · rcases h with h | h | ⟨h, -⟩ <;> simp_all

/-- Claim C5, amended: whenever a father, a son, or a grandfather in the
father's absence is among the non-blocked heirs, the exclusion pass
blocks the full and paternal siblings of both sexes — but not the
maternal siblings, which rule 2 does not list: on a fresh heir list they
come out unblocked. -/
theorem rule2_blocks_full_and_paternal (hs : List Heir)
    (f : ∀ h ∈ hs, h.is_blocked = false)
    (b : "الأب" ∈ nonBlockedRels hs ∨ "الابن" ∈ nonBlockedRels hs ∨
         ("الجد" ∈ nonBlockedRels hs ∧ "الأب" ∉ nonBlockedRels hs)) :
    ∀ x ∈ apply_hijab_rules hs,
      (x.relation ∈ rule2Kinds → x.is_blocked = true) ∧
      ((x.relation = "الأخ_لأم" ∨ x.relation = "الأخت_لأم") →
        x.is_blocked = false) := by
  intro x hx
  simp only [apply_hijab_rules] at hx
  obtain ⟨blk, hblk⟩ := hijabBlocker_isSome b
  have hrule2 : ∀ l : List Heir, hijabRule2 (nonBlockedRels hs) l =
      blockIf (fun h => decide (h.relation ∈ rule2Kinds)) l := by
    intro l; unfold hijabRule2; rw [hblk]
  constructor
  · intro hkind
    -- descend through rule 3 to rule 2, which blocks these kinds
    have hx2 : x.is_blocked = true ∨
        x ∈ hijabRule2 (nonBlockedRels hs) (hijabRule1 (nonBlockedRels hs) hs) := by
      unfold hijabRule3 at hx
      split at hx
      · by_cases hq : (decide (x.relation = "الأخ_لأب") ||
                       decide (x.relation = "الأخت_لأب")) = true
        · exact Or.inl (blockIf_blocks
            (fun r => decide (r = "الأخ_لأب") || decide (r = "الأخت_لأب")) hx hq)
        · exact Or.inr (blockIf_untouched
            (fun r => decide (r = "الأخ_لأب") || decide (r = "الأخت_لأب")) hx
            (by simpa using hq))
      · exact Or.inr hx
    rcases hx2 with hdone | hx2
    · exact hdone
    · rw [hrule2] at hx2
      exact blockIf_blocks (fun r => decide (r ∈ rule2Kinds)) hx2 (by simpa)
  · intro hmat
    have hq3 : (decide (x.relation = "الأخ_لأب") ||
                decide (x.relation = "الأخت_لأب")) = false := by
      rcases hmat with hm | hm <;> simp [hm]
    have hx2 : x ∈ hijabRule2 (nonBlockedRels hs) (hijabRule1 (nonBlockedRels hs) hs) := by
      unfold hijabRule3 at hx
      split at hx
      · exact blockIf_untouched
          (fun r => decide (r = "الأخ_لأب") || decide (r = "الأخت_لأب")) hx hq3
      · exact hx
    rw [hrule2] at hx2
    have hq2 : decide (x.relation ∈ rule2Kinds) = false := by
      rcases hmat with hm | hm <;> simp [hm, rule2Kinds]
    have hx1 : x ∈ hijabRule1 (nonBlockedRels hs) hs :=
      blockIf_untouched (fun r => decide (r ∈ rule2Kinds)) hx2 hq2
    have hq1 : decide (x.relation = "الجد") = false := by
      rcases hmat with hm | hm <;> simp [hm]
    have hx0 : x ∈ hs := by
      unfold hijabRule1 at hx1
      split at hx1
      · exact blockIf_untouched (fun r => decide (r = "الجد")) hx1 hq1
      · exact hx1
    exact f x hx0

/-- Witness for C5's amended statement: father plus one sibling of each
of the six sibling kinds; the four full/paternal siblings come out
blocked and the two maternal ones unblocked. -/
theorem rule2_blocks_witness :
    ((∀ h ∈ ([{ name := "الأب", relation := "الأب", gender := "ذكر" },
       { name := "الأخ الشقيق", relation := "الأخ_الشقيق", gender := "ذكر" },
       { name := "الأخت الشقيقة", relation := "الأخت_الشقيقة", gender := "أنثى" },
       { name := "الأخ لأب", relation := "الأخ_لأب", gender := "ذكر" },
       { name := "الأخت لأب", relation := "الأخت_لأب", gender := "أنثى" },
       { name := "الأخ لأم", relation := "الأخ_لأم", gender := "ذكر" },
       { name := "الأخت لأم", relation := "الأخت_لأم", gender := "أنثى" }] : List Heir),
        h.is_blocked = false)) ∧
    (∀ x ∈ apply_hijab_rules
       [{ name := "الأب", relation := "الأب", gender := "ذكر" },
        { name := "الأخ الشقيق", relation := "الأخ_الشقيق", gender := "ذكر" },
        { name := "الأخت الشقيقة", relation := "الأخت_الشقيقة", gender := "أنثى" },
        { name := "الأخ لأب", relation := "الأخ_لأب", gender := "ذكر" },
        { name := "الأخت لأب", relation := "الأخت_لأب", gender := "أنثى" },
        { name := "الأخ لأم", relation := "الأخ_لأم", gender := "ذكر" },
        { name := "الأخت لأم", relation := "الأخت_لأم", gender := "أنثى" }],
      (x.relation ∈ rule2Kinds → x.is_blocked = true) ∧
      ((x.relation = "الأخ_لأم" ∨ x.relation = "الأخت_لأم") →
        x.is_blocked = false)) :=
  ⟨by decide,
   rule2_blocks_full_and_paternal
     [{ name := "الأب", relation := "الأب", gender := "ذكر" },
      { name := "الأخ الشقيق", relation := "الأخ_الشقيق", gender := "ذكر" },
      { name := "الأخت الشقيقة", relation := "الأخت_الشقيقة", gender := "أنثى" },
      { name := "الأخ لأب", relation := "الأخ_لأب", gender := "ذكر" },
      { name := "الأخت لأب", relation := "الأخت_لأب", gender := "أنثى" },
      { name := "الأخ لأم", relation := "الأخ_لأم", gender := "ذكر" },
      { name := "الأخت لأم", relation := "الأخت_لأم", gender := "أنثى" }]
     (by decide) (Or.inl (by decide))⟩



/-! Tracking through every calculator pass, for the invariant claims. -/

theorem hijabTracked_refl (y : Heir) : hijabTracked y y :=
  ⟨rfl, rfl, rfl, rfl, rfl, Or.inl rfl⟩

theorem hijabTracked_trans {z y x : Heir} (h1 : hijabTracked z y)
    (h2 : hijabTracked y x) : hijabTracked z x := by
  obtain ⟨n1, r1, g1, c1, s1, b1⟩ := h1
  obtain ⟨n2, r2, g2, c2, s2, b2⟩ := h2
  refine ⟨n2.trans n1, r2.trans r1, g2.trans g1, c2.trans c1, s2.trans s1, ?_⟩
  rcases b2 with b2 | ⟨bt, bk⟩
  · rcases b1 with b1 | ⟨bt, bk⟩
    · exact Or.inl (b2.trans b1)
    · exact Or.inr ⟨b2.trans bt, by rw [r2]; exact bk⟩
  · exact Or.inr ⟨bt, bk⟩

theorem blockIf_tracked (q : String → Bool)
    (w : ∀ r, q r = true → (r = "الجد" ∨ r ∈ rule2Kinds))
    {hs : List Heir} {x : Heir}
    (h : x ∈ blockIf (fun h => q h.relation) hs) :
    ∃ y ∈ hs, hijabTracked y x := by
  obtain ⟨y, hy, ⟨he, -⟩ | ⟨he, hp⟩⟩ := blockIf_mem_track (fun h => q h.relation) h
  · exact ⟨y, hy, by rw [he]; exact hijabTracked_refl y⟩
  · refine ⟨y, hy, ?_⟩
    rw [he]
    exact ⟨rfl, rfl, rfl, rfl, rfl, Or.inr ⟨rfl, w _ (by simpa using hp)⟩⟩

theorem hijabRule1_tracked {r : List String} {hs : List Heir} {x : Heir}
    (h : x ∈ hijabRule1 r hs) : ∃ y ∈ hs, hijabTracked y x := by
  unfold hijabRule1 at h
  split at h
  · exact blockIf_tracked (fun s => decide (s = "الجد"))
      (fun s hq => Or.inl (by simpa using hq)) h
  · exact ⟨x, h, hijabTracked_refl x⟩

theorem hijabRule2_tracked {r : List String} {hs : List Heir} {x : Heir}
    (h : x ∈ hijabRule2 r hs) : ∃ y ∈ hs, hijabTracked y x := by
  unfold hijabRule2 at h
  split at h
  · exact blockIf_tracked (fun s => decide (s ∈ rule2Kinds))
      (fun s hq => Or.inr (by simpa using hq)) h
  · exact ⟨x, h, hijabTracked_refl x⟩

theorem hijabRule3_tracked {r : List String} {hs : List Heir} {x : Heir}
    (h : x ∈ hijabRule3 r hs) : ∃ y ∈ hs, hijabTracked y x := by
  unfold hijabRule3 at h
  split at h
  · refine blockIf_tracked
      (fun s => decide (s = "الأخ_لأب") || decide (s = "الأخت_لأب")) ?_ h
    intro s hq
    rw [Bool.or_eq_true] at hq
    rcases hq with hq | hq
    · exact Or.inr (by simp [rule2Kinds, decide_eq_true_eq.mp hq])
    · exact Or.inr (by simp [rule2Kinds, decide_eq_true_eq.mp hq])
  · exact ⟨x, h, hijabTracked_refl x⟩

theorem hijab_tracked {hs : List Heir} {x : Heir}
    (h : x ∈ apply_hijab_rules hs) : ∃ y ∈ hs, hijabTracked y x := by
  simp only [apply_hijab_rules] at h
  obtain ⟨y2, hy2, t3⟩ := hijabRule3_tracked h
  obtain ⟨y1, hy1, t2⟩ := hijabRule2_tracked hy2
  obtain ⟨y0, hy0, t1⟩ := hijabRule1_tracked hy1
  exact ⟨y0, hy0, hijabTracked_trans (hijabTracked_trans t1 t2) t3⟩

theorem updateFirst_mem {p : Heir → Bool} {f : Heir → Heir} {hs : List Heir}
    {x : Heir} (h : x ∈ updateFirst p f hs) :
    x ∈ hs ∨ ∃ y ∈ hs, p y = true ∧ x = f y := by
  induction hs with
  | nil => cases h
  | cons a t ih =>
    unfold updateFirst at h
    by_cases hp : p a = true
    · rw [if_pos hp] at h
      rcases List.mem_cons.1 h with rfl | hmem
      · exact Or.inr ⟨a, List.mem_cons_self a t, hp, rfl⟩
      · exact Or.inl (List.mem_cons_of_mem a hmem)
    · rw [if_neg hp] at h
      rcases List.mem_cons.1 h with rfl | hmem
      · exact Or.inl (List.mem_cons_self x t)
      · rcases ih hmem with h1 | ⟨y, hy, hpy, hxy⟩
        · exact Or.inl (List.mem_cons_of_mem a h1)
        · exact Or.inr ⟨y, List.mem_cons_of_mem a hy, hpy, hxy⟩

theorem fardShare_some_relation {hs : List Heir} {c : Bool} {y : Heir} {q : ℚ}
    (h : fardShare hs c y = some q) :
    y.relation ∈ ["الزوجة", "الزوج", "البنت", "الأب", "الجد", "الأم"] := by
  unfold fardShare at h
  split_ifs at h <;> simp_all

theorem fardUpdate_blocked_eq (hs : List Heir) (c : Bool) {y : Heir}
    (hb : y.is_blocked = true) : fardUpdate hs c y = y := by
  unfold fardUpdate; rw [if_pos hb]

theorem fardUpdate_is_blocked (hs : List Heir) (c : Bool) (y : Heir) :
    (fardUpdate hs c y).is_blocked = y.is_blocked := by
  unfold fardUpdate
  split_ifs with h1
  · rfl
  · split <;> rfl

theorem fardUpdate_relation (hs : List Heir) (c : Bool) (y : Heir) :
    (fardUpdate hs c y).relation = y.relation := by
  unfold fardUpdate
  split_ifs with h1
  · rfl
  · split <;> rfl

theorem fardUpdate_inert (hs : List Heir) (c : Bool) {y : Heir}
    (h : y.relation ∉ ["الزوجة", "الزوج", "البنت", "الأب", "الجد", "الأم"]) :
    fardUpdate hs c y = y := by
  unfold fardUpdate
  split_ifs with h1
  · rfl
  · cases he : fardShare hs c y with
    | none => simp [he]
    | some q => exact absurd (fardShare_some_relation he) h

theorem asabaAugment_fields (rem : ℚ) (y : Heir) :
    (asabaAugment rem y).name = y.name ∧ (asabaAugment rem y).relation = y.relation ∧
    (asabaAugment rem y).gender = y.gender ∧ (asabaAugment rem y).count = y.count ∧
    (asabaAugment rem y).is_blocked = y.is_blocked := by
  unfold asabaAugment; split_ifs <;> exact ⟨rfl, rfl, rfl, rfl, rfl⟩

theorem distribute_asaba_track {hs : List Heir} {rem : ℚ} {x : Heir}
    (hx : x ∈ distribute_asaba hs rem) :
    ∃ y ∈ hs, x.name = y.name ∧ x.relation = y.relation ∧ x.gender = y.gender ∧
      x.count = y.count ∧ x.is_blocked = y.is_blocked ∧
      (x = y ∨ (y.is_blocked = false ∧ y.relation ∈
        ["الابن", "البنت", "الأب", "الجد",
         "الأخ_الشقيق", "الأخت_الشقيقة", "الأخ_لأب", "الأخت_لأب"])) := by
  simp only [distribute_asaba] at hx
  split_ifs at hx
  · -- sons/daughters branch
    obtain ⟨y, hy, he⟩ := List.mem_map.1 hx
    split_ifs at he with e1 e2
    · subst he
      refine ⟨y, hy, rfl, rfl, rfl, rfl, rfl, Or.inr ⟨?_, ?_⟩⟩
      · simp only [isSonNB, Bool.and_eq_true] at e1; simpa using e1.2
      · simp only [isSonNB, Bool.and_eq_true, decide_eq_true_eq] at e1
        simp [e1.1]
    · subst he
      refine ⟨y, hy, rfl, rfl, rfl, rfl, rfl, Or.inr ⟨?_, ?_⟩⟩
      · simp only [isDaughterNB0, Bool.and_eq_true] at e2; simpa using e2.1.2
      · simp only [isDaughterNB0, Bool.and_eq_true, decide_eq_true_eq] at e2
        simp [e2.1.1]
    · subst he; exact ⟨y, hy, rfl, rfl, rfl, rfl, rfl, Or.inl rfl⟩
  · -- father branch
    rcases updateFirst_mem hx with hmem | ⟨y, hy, hp, he⟩
    · exact ⟨x, hmem, rfl, rfl, rfl, rfl, rfl, Or.inl rfl⟩
    · subst he
      obtain ⟨f1, f2, f3, f4, f5⟩ := asabaAugment_fields rem y
      simp only [Bool.and_eq_true, decide_eq_true_eq] at hp
      refine ⟨y, hy, f1, f2, f3, f4, f5, Or.inr ⟨by simpa using hp.2, by simp [hp.1]⟩⟩
  · -- grandfather branch
    rcases updateFirst_mem hx with hmem | ⟨y, hy, hp, he⟩
    · exact ⟨x, hmem, rfl, rfl, rfl, rfl, rfl, Or.inl rfl⟩
    · subst he
      obtain ⟨f1, f2, f3, f4, f5⟩ := asabaAugment_fields rem y
      simp only [Bool.and_eq_true, decide_eq_true_eq] at hp
      refine ⟨y, hy, f1, f2, f3, f4, f5, Or.inr ⟨by simpa using hp.2, by simp [hp.1]⟩⟩
  · -- full siblings branch
    obtain ⟨y, hy, he⟩ := List.mem_map.1 hx
    split_ifs at he with e1 e2
    · subst he
      refine ⟨y, hy, rfl, rfl, rfl, rfl, rfl, Or.inr ⟨?_, ?_⟩⟩
      · simp only [isFullBroNB, Bool.and_eq_true] at e1; simpa using e1.2
      · simp only [isFullBroNB, Bool.and_eq_true, decide_eq_true_eq] at e1
        simp [e1.1]
    · subst he
      refine ⟨y, hy, rfl, rfl, rfl, rfl, rfl, Or.inr ⟨?_, ?_⟩⟩
      · simp only [isFullSisNB0, Bool.and_eq_true] at e2; simpa using e2.1.2
      · simp only [isFullSisNB0, Bool.and_eq_true, decide_eq_true_eq] at e2
        simp [e2.1.1]
    · subst he; exact ⟨y, hy, rfl, rfl, rfl, rfl, rfl, Or.inl rfl⟩
  · -- paternal siblings branch
    obtain ⟨y, hy, he⟩ := List.mem_map.1 hx
    split_ifs at he with e1 e2
    · subst he
      refine ⟨y, hy, rfl, rfl, rfl, rfl, rfl, Or.inr ⟨?_, ?_⟩⟩
      · simp only [isPatBroNB, Bool.and_eq_true] at e1; simpa using e1.2
      · simp only [isPatBroNB, Bool.and_eq_true, decide_eq_true_eq] at e1
        simp [e1.1]
    · subst he
      refine ⟨y, hy, rfl, rfl, rfl, rfl, rfl, Or.inr ⟨?_, ?_⟩⟩
      · simp only [isPatSisNB0, Bool.and_eq_true] at e2; simpa using e2.1.2
      · simp only [isPatSisNB0, Bool.and_eq_true, decide_eq_true_eq] at e2
        simp [e2.1.1]
    · subst he; exact ⟨y, hy, rfl, rfl, rfl, rfl, rfl, Or.inl rfl⟩
  · exact ⟨x, hx, rfl, rfl, rfl, rfl, rfl, Or.inl rfl⟩

theorem solve_umariyyatayn_mem_track {hs : List Heir} {x : Heir}
    (h : x ∈ solve_umariyyatayn hs) :
    ∃ y ∈ hs, x.name = y.name ∧ x.relation = y.relation ∧ x.gender = y.gender ∧
      x.count = y.count ∧ x.is_blocked = y.is_blocked ∧
      (x.share = y.share ∨
        x.relation ∈ ["الزوجة", "الزوج", "الأم", "الأب"]) := by
  simp only [solve_umariyyatayn] at h
  split at h <;>
  · obtain ⟨y, hy, he⟩ := List.mem_map.1 h
    split_ifs at he with e1 e2 e3 <;> subst he
    · exact ⟨y, hy, rfl, rfl, rfl, rfl, rfl, Or.inr (by simp [e1])⟩
    · exact ⟨y, hy, rfl, rfl, rfl, rfl, rfl, Or.inr (by simp [e2])⟩
    · exact ⟨y, hy, rfl, rfl, rfl, rfl, rfl, Or.inr (by simp [e3])⟩
    · exact ⟨y, hy, rfl, rfl, rfl, rfl, rfl, Or.inl rfl⟩

/-- Claim C3: on any heir list the calculator can receive from the
detector (all records unblocked with share 0), every heir record that
ends blocked after `calculate` has share exactly 0. -/
theorem blocked_share_zero (hs : List Heir)
    (f : ∀ h ∈ hs, h.is_blocked = false ∧ h.share = 0) :
    ∀ x ∈ calculate hs, x.is_blocked = true → x.share = 0 := by
  have hij : ∀ z ∈ apply_hijab_rules hs, z.share = 0 ∧
      (z.is_blocked = true →
        (z.relation = "الجد" ∨ z.relation ∈ rule2Kinds)) := by
    intro z hz
    obtain ⟨y, hy, -, hrel, -, -, hsh, hbl⟩ := hijab_tracked hz
    refine ⟨hsh.trans (f y hy).2, fun hb => ?_⟩
    rcases hbl with hbl | ⟨-, hk⟩
    · rw [hb, (f y hy).1] at hbl; cases hbl
    · exact hk
  intro x hx hb
  simp only [calculate] at hx
  by_cases hchk : check_umariyyatayn (apply_hijab_rules hs) = true
  · rw [show calculate_fixed_shares (apply_hijab_rules hs) =
        (solve_umariyyatayn (apply_hijab_rules hs), 1) from by
          simp [calculate_fixed_shares, hchk]] at hx
    norm_num [ite_self] at hx
    obtain ⟨y, hy, -, hrel, -, -, hbl, hshare⟩ := solve_umariyyatayn_mem_track hx
    have hyb : y.is_blocked = true := by rw [← hbl]; exact hb
    have hk := (hij y hy).2 hyb
    rcases hshare with hsh | hmem
    · exact hsh.trans (hij y hy).1
    · exfalso
      rw [hrel] at hmem
      rcases hk with hk | hk
      · rw [hk] at hmem; simp at hmem
      · simp only [rule2Kinds] at hk
        rcases List.mem_cons.1 hk with hk | hk
        · rw [hk] at hmem; simp at hmem
        · rcases List.mem_cons.1 hk with hk | hk
          · rw [hk] at hmem; simp at hmem
          · rcases List.mem_cons.1 hk with hk | hk
            · rw [hk] at hmem; simp at hmem
            · rcases List.mem_cons.1 hk with hk | hk
              · rw [hk] at hmem; simp at hmem
              · simp at hk
  · rw [show calculate_fixed_shares (apply_hijab_rules hs) =
        ((apply_hijab_rules hs).map
          (fardUpdate (apply_hijab_rules hs) (has_children_f (apply_hijab_rules hs))),
         (((apply_hijab_rules hs).filter (fun h => !h.is_blocked)).filterMap
           (fun h => fardShare (apply_hijab_rules hs)
             (has_children_f (apply_hijab_rules hs)) h)).sum) from by
          simp [calculate_fixed_shares, hchk]] at hx
    have hmapped : ∀ z ∈ (apply_hijab_rules hs).map
        (fardUpdate (apply_hijab_rules hs) (has_children_f (apply_hijab_rules hs))),
        z.is_blocked = true → z.share = 0 := by
      intro z hz hzb
      obtain ⟨y, hy, he⟩ := List.mem_map.1 hz
      have hyb : y.is_blocked = true := by
        rw [← fardUpdate_is_blocked (apply_hijab_rules hs)
          (has_children_f (apply_hijab_rules hs)) y, he]; exact hzb
      rw [← he, fardUpdate_blocked_eq _ _ hyb]
      exact (hij y hy).1
    split at hx
    · split at hx
      · obtain ⟨y, hy, -, -, -, -, hbl, hcase⟩ := distribute_asaba_track hx
        have hyb : y.is_blocked = true := by rw [← hbl]; exact hb
        rcases hcase with rfl | ⟨hnb, -⟩
        · exact hmapped _ hy hb
        · rw [hyb] at hnb; cases hnb
      · exact hmapped _ hx hb
    · exact hmapped _ hx hb

/-- Witness for C3 at a list where blocking occurs: father plus full
brother; the brother ends blocked and with share 0. -/
theorem blocked_share_zero_witness :
    (∀ h ∈ ([{ name := "الأب", relation := "الأب", gender := "ذكر" },
       { name := "الأخ الشقيق", relation := "الأخ_الشقيق", gender := "ذكر" }] : List Heir),
      h.is_blocked = false ∧ h.share = 0) ∧
    (∀ x ∈ calculate
       [{ name := "الأب", relation := "الأب", gender := "ذكر" },
        { name := "الأخ الشقيق", relation := "الأخ_الشقيق", gender := "ذكر" }],
      x.is_blocked = true → x.share = 0) :=
  ⟨by decide,
   blocked_share_zero
     [{ name := "الأب", relation := "الأب", gender := "ذكر" },
      { name := "الأخ الشقيق", relation := "الأخ_الشقيق", gender := "ذكر" }]
     (by decide)⟩



/-- Claim C6, amended: heirs whose kind is outside the subset the
calculator acts on (for example the nephew ابن_الأخ or the paternal
uncle العم) end unblocked with share 0.  (Their *presence* is however
not inert: kinds whose tag contains أخ are counted by the mother's
sibling rule, and any extra non-blocked heir defeats the ʿUmariyyatān
count — see the counterexample.) -/
theorem inert_kinds_passthrough (hs : List Heir)
    (f : ∀ h ∈ hs, h.is_blocked = false ∧ h.share = 0) :
    ∀ x ∈ calculate hs, x.relation ∉ actedKinds →
      x.is_blocked = false ∧ x.share = 0 := by
  have hsub2 : ∀ r ∈ rule2Kinds, r ∈ actedKinds := by decide
  have hsub4 : ∀ r ∈ (["الزوجة", "الزوج", "الأم", "الأب"] : List String),
      r ∈ actedKinds := by decide
  have hsub6 : ∀ r ∈ (["الزوجة", "الزوج", "البنت", "الأب", "الجد", "الأم"] :
      List String), r ∈ actedKinds := by decide
  have hsub8 : ∀ r ∈ (["الابن", "البنت", "الأب", "الجد", "الأخ_الشقيق",
      "الأخت_الشقيقة", "الأخ_لأب", "الأخت_لأب"] : List String),
      r ∈ actedKinds := by decide
  have hij : ∀ z ∈ apply_hijab_rules hs, z.relation ∉ actedKinds →
      z.is_blocked = false ∧ z.share = 0 := by
    intro z hz hzin
    obtain ⟨y, hy, -, hrel, -, -, hsh, hbl⟩ := hijab_tracked hz
    refine ⟨?_, hsh.trans (f y hy).2⟩
    rcases hbl with hbl | ⟨-, hk⟩
    · rw [hbl]; exact (f y hy).1
    · exfalso
      apply hzin
      rcases hk with hk | hk
      · rw [hk]; decide
      · exact hsub2 _ hk
  have hmapped : ∀ z ∈ (apply_hijab_rules hs).map
      (fardUpdate (apply_hijab_rules hs) (has_children_f (apply_hijab_rules hs))),
      z.relation ∉ actedKinds → z.is_blocked = false ∧ z.share = 0 := by
    intro z hz hzin
    obtain ⟨y, hy, he⟩ := List.mem_map.1 hz
    have hyrel : y.relation ∉ actedKinds := by
      rw [← fardUpdate_relation (apply_hijab_rules hs)
        (has_children_f (apply_hijab_rules hs)) y, he]
      exact hzin
    have hid : fardUpdate (apply_hijab_rules hs)
        (has_children_f (apply_hijab_rules hs)) y = y :=
      fardUpdate_inert _ _ (fun hmem => hyrel (hsub6 _ hmem))
    rw [← he, hid]
    exact hij y hy hyrel
  intro x hx hinert
  simp only [calculate] at hx
  by_cases hchk : check_umariyyatayn (apply_hijab_rules hs) = true
  · rw [show calculate_fixed_shares (apply_hijab_rules hs) =
        (solve_umariyyatayn (apply_hijab_rules hs), 1) from by
          simp [calculate_fixed_shares, hchk]] at hx
    norm_num [ite_self] at hx
    obtain ⟨y, hy, -, hrel, -, -, hbl, hshare⟩ := solve_umariyyatayn_mem_track hx
    have hyin : y.relation ∉ actedKinds := by rw [← hrel]; exact hinert
    rcases hshare with hsh | hmem
    · obtain ⟨hb0, hs0⟩ := hij y hy hyin
      exact ⟨hbl.trans hb0, hsh.trans hs0⟩
    · exact absurd (hsub4 _ hmem) hinert
  · rw [show calculate_fixed_shares (apply_hijab_rules hs) =
        ((apply_hijab_rules hs).map
          (fardUpdate (apply_hijab_rules hs) (has_children_f (apply_hijab_rules hs))),
         (((apply_hijab_rules hs).filter (fun h => !h.is_blocked)).filterMap
           (fun h => fardShare (apply_hijab_rules hs)
             (has_children_f (apply_hijab_rules hs)) h)).sum) from by
          simp [calculate_fixed_shares, hchk]] at hx
    split at hx
    · split at hx
      · obtain ⟨y, hy, -, hrel, -, -, hbl, hcase⟩ := distribute_asaba_track hx
        have hyin : y.relation ∉ actedKinds := by rw [← hrel]; exact hinert
        rcases hcase with rfl | ⟨-, hmem⟩
        · exact hmapped _ hy hinert
        · exact absurd (hsub8 _ hmem) hyin
      · exact hmapped _ hx hinert
    · exact hmapped _ hx hinert

/-- Witness for C6's amended statement: a mother with two nephews; the
nephews (an un-acted-on kind) end unblocked with share 0. -/
theorem inert_kinds_passthrough_witness :
    (∀ h ∈ ([{ name := "الأم", relation := "الأم", gender := "أنثى" },
       { name := "ابن الأخ 1", relation := "ابن_الأخ", gender := "ذكر" },
       { name := "ابن الأخ 2", relation := "ابن_الأخ", gender := "ذكر" }] : List Heir),
      h.is_blocked = false ∧ h.share = 0) ∧
    (∀ x ∈ calculate
       [{ name := "الأم", relation := "الأم", gender := "أنثى" },
        { name := "ابن الأخ 1", relation := "ابن_الأخ", gender := "ذكر" },
        { name := "ابن الأخ 2", relation := "ابن_الأخ", gender := "ذكر" }],
      x.relation ∉ actedKinds → x.is_blocked = false ∧ x.share = 0) :=
  ⟨by decide,
   inert_kinds_passthrough
     [{ name := "الأم", relation := "الأم", gender := "أنثى" },
      { name := "ابن الأخ 1", relation := "ابن_الأخ", gender := "ذكر" },
      { name := "ابن الأخ 2", relation := "ابن_الأخ", gender := "ذكر" }]
     (by decide)⟩

/-- Claim C9, amended: every non-blocked entry of the results mapping
carries the rendering of its heir's exact share, which is
"numerator/denominator" whenever the denominator differs from 1, and
the bare numerator (no denominator) for a whole-number share. -/
theorem results_fraction_rendering (hs : List Heir) (n fr rel : String)
    (hmem : (n, ResVal.entry fr rel) ∈ calculate_results hs) :
    ∃ h ∈ calculate hs, h.is_blocked = false ∧ n = h.name ∧ rel = h.relation ∧
      fr = fractionStr h.share ∧
      (h.share.den ≠ 1 → fr = toString h.share.num ++ "/" ++ toString h.share.den) ∧
      (h.share.den = 1 → fr = toString h.share.num) := by
  unfold calculate_results at hmem
  obtain ⟨h, hh, heq⟩ := List.mem_map.1 hmem
  by_cases hb : h.is_blocked = true
  · rw [if_pos hb] at heq
    exact absurd (congrArg Prod.snd heq) (by simp)
  · rw [if_neg hb] at heq
    have hn : h.name = n := congrArg Prod.fst heq
    have hv : ResVal.entry (fractionStr h.share) h.relation =
        ResVal.entry fr rel := congrArg Prod.snd heq
    obtain ⟨hfr, hrel⟩ := ResVal.entry.inj hv
    refine ⟨h, hh, by simpa using hb, hn.symm, hrel.symm, hfr.symm, ?_, ?_⟩
    · intro hd; rw [← hfr]; unfold fractionStr; rw [if_neg hd]
    · intro hd; rw [← hfr]; unfold fractionStr; rw [if_pos hd]




/-! Summation lemmas for the residue pass. -/

theorem sumShares_cons (a : Heir) (t : List Heir) :
    sumShares (a :: t) = a.share + sumShares t := by
  simp [sumShares]

theorem isDaughterNB0_share {h : Heir} (hp : isDaughterNB0 h = true) :
    h.share = 0 := by
  simp only [isDaughterNB0, Bool.and_eq_true, decide_eq_true_eq] at hp
  exact hp.2

theorem isFullSisNB0_share {h : Heir} (hp : isFullSisNB0 h = true) :
    h.share = 0 := by
  simp only [isFullSisNB0, Bool.and_eq_true, decide_eq_true_eq] at hp
  exact hp.2

theorem isPatSisNB0_share {h : Heir} (hp : isPatSisNB0 h = true) :
    h.share = 0 := by
  simp only [isPatSisNB0, Bool.and_eq_true, decide_eq_true_eq] at hp
  exact hp.2

theorem sumShares_units_map (pa pb : Heir → Bool) (u : ℚ) (hs : List Heir)
    (d : ∀ h, pa h = true → pb h = false)
    (za : ∀ h ∈ hs, pa h = true → h.share = 0)
    (zb : ∀ h ∈ hs, pb h = true → h.share = 0) :
    sumShares (hs.map (fun h =>
      if pa h then { h with share := u * 2 }
      else if pb h then { h with share := u }
      else h)) =
    sumShares hs + u * 2 * (hs.countP pa : ℚ) + u * (hs.countP pb : ℚ) := by
  induction hs with
  | nil => simp [sumShares]
  | cons a t ih =>
    have iht := ih (fun h hh hp => za h (List.mem_cons_of_mem a hh) hp)
      (fun h hh hp => zb h (List.mem_cons_of_mem a hh) hp)
    by_cases hpa : pa a = true
    · have hpb := d a hpa
      have ha0 := za a (List.mem_cons_self a t) hpa
      simp only [List.map_cons, sumShares_cons, if_pos hpa, List.countP_cons,
        hpa, hpb, iht, ha0]
      push_cast
      ring
    · by_cases hpb : pb a = true
      · have ha0 := zb a (List.mem_cons_self a t) hpb
        simp only [List.map_cons, sumShares_cons, if_neg hpa, if_pos hpb,
          List.countP_cons, hpa, hpb, iht, ha0]
        push_cast
        ring
      · simp only [List.map_cons, sumShares_cons, if_neg hpa, if_neg hpb,
          List.countP_cons, hpa, hpb, iht]
        push_cast
        ring

theorem sumShares_updateFirst (p : Heir → Bool) (rem : ℚ) (hs : List Heir)
    (e : ∃ h ∈ hs, p h = true)
    (z : ∀ h ∈ hs, 0 ≤ h.share) :
    sumShares (updateFirst p (asabaAugment rem) hs) = sumShares hs + rem := by
  induction hs with
  | nil => rcases e with ⟨h, hh, -⟩; cases hh
  | cons a t ih =>
    unfold updateFirst
    by_cases hpa : p a = true
    · rw [if_pos hpa, sumShares_cons, sumShares_cons]
      unfold asabaAugment
      by_cases hgt : a.share > 0
      · rw [if_pos hgt]
        show a.share + rem + sumShares t = a.share + sumShares t + rem
        ring
      · rw [if_neg hgt]
        have h0 : a.share = 0 :=
          le_antisymm (not_lt.1 hgt) (z a (List.mem_cons_self a t))
        show rem + sumShares t = a.share + sumShares t + rem
        rw [h0]; ring
    · rw [if_neg hpa, sumShares_cons, sumShares_cons]
      have e2 : ∃ h ∈ t, p h = true := by
        rcases e with ⟨h, hh, hp⟩
        rcases List.mem_cons.1 hh with rfl | hh
        · exact absurd hp hpa
        · exact ⟨h, hh, hp⟩
      rw [ih e2 (fun h hh => z h (List.mem_cons_of_mem a hh))]
      ring

theorem zip_map_cases (u : Heir → Heir) (hs : List Heir) :
    ∀ pr ∈ (hs.map u).zip hs, pr.1 = u pr.2 := by
  induction hs with
  | nil => intro pr h; cases h
  | cons a t ih =>
    intro pr h
    simp only [List.map_cons, List.zip_cons_cons] at h
    rcases List.mem_cons.1 h with rfl | h
    · rfl
    · exact ih pr h

theorem zip_self_eq (hs : List Heir) : ∀ pr ∈ hs.zip hs, pr.1 = pr.2 := by
  induction hs with
  | nil => intro pr h; cases h
  | cons a t ih =>
    intro pr h
    simp only [List.zip_cons_cons] at h
    rcases List.mem_cons.1 h with rfl | h
    · rfl
    · exact ih pr h

theorem zip_updateFirst_cases (p : Heir → Bool) (f : Heir → Heir) (hs : List Heir) :
    ∀ pr ∈ (updateFirst p f hs).zip hs,
      pr.1 = pr.2 ∨ (p pr.2 = true ∧ pr.1 = f pr.2) := by
  induction hs with
  | nil => intro pr h; cases h
  | cons a t ih =>
    intro pr h
    unfold updateFirst at h
    by_cases hpa : p a = true
    · rw [if_pos hpa] at h
      simp only [List.zip_cons_cons] at h
      rcases List.mem_cons.1 h with rfl | h
      · exact Or.inr ⟨hpa, rfl⟩
      · exact Or.inl (zip_self_eq t pr h)
    · rw [if_neg hpa] at h
      simp only [List.zip_cons_cons] at h
      rcases List.mem_cons.1 h with rfl | h
      · exact Or.inl rfl
      · exact ih pr h

theorem son_not_daughter (h : Heir) (hp : isSonNB h = true) :
    isDaughterNB0 h = false := by
  simp only [isSonNB, Bool.and_eq_true, decide_eq_true_eq] at hp
  simp [isDaughterNB0, hp.1]

theorem fullbro_not_fullsis (h : Heir) (hp : isFullBroNB h = true) :
    isFullSisNB0 h = false := by
  simp only [isFullBroNB, Bool.and_eq_true, decide_eq_true_eq] at hp
  simp [isFullSisNB0, hp.1]

theorem patbro_not_patsis (h : Heir) (hp : isPatBroNB h = true) :
    isPatSisNB0 h = false := by
  simp only [isPatBroNB, Bool.and_eq_true, decide_eq_true_eq] at hp
  simp [isPatSisNB0, hp.1]

theorem length_pos_of_isEmpty_false {α : Type} {l : List α}
    (h : l.isEmpty = false) : 0 < l.length := by
  cases l with
  | nil => simp at h
  | cons a t => simp

theorem units_algebra (rem : ℚ) (a b : Nat) (hn : a * 2 + b ≠ 0) :
    rem / ((a * 2 + b : Nat) : ℚ) * 2 * (a : ℚ) +
      rem / ((a * 2 + b : Nat) : ℚ) * (b : ℚ) = rem := by
  have hq : ((a : ℚ) * 2 + (b : ℚ)) ≠ 0 := by
    have h2 : ((a * 2 + b : Nat) : ℚ) ≠ 0 := Nat.cast_ne_zero.mpr hn
    push_cast at h2
    exact h2
  push_cast
  field_simp
  ring

/-- Claim C4: whenever the residue pass fires with a strictly positive
residue (on heirs whose would-be residuaries carry no fard yet, as the
pipeline guarantees), the shares it assigns sum exactly to the residue,
and only members of the single consuming group — the first group of the
priority list with a non-blocked member — are touched. -/
theorem residue_partition (hs : List Heir) (rem : ℚ)
    (_r : 0 < rem)
    (z : ∀ h ∈ hs, h.is_blocked = false →
      (h.relation = "الابن" ∨ h.relation = "الأخ_الشقيق" ∨
       h.relation = "الأخ_لأب") → h.share = 0)
    (p : ∀ h ∈ hs, 0 ≤ h.share)
    (g : consumingGroup hs rem ≠ 0) :
    sumShares (distribute_asaba hs rem) = sumShares hs + rem ∧
    (∀ pr ∈ (distribute_asaba hs rem).zip hs,
      pr.1 = pr.2 ∨ memberOfGroup (consumingGroup hs rem) pr.2 = true) := by
  have za : ∀ h ∈ hs, isSonNB h = true → h.share = 0 := by
    intro h hh hp
    simp only [isSonNB, Bool.and_eq_true, decide_eq_true_eq] at hp
    exact z h hh (by simpa using hp.2) (Or.inl hp.1)
  have zf : ∀ h ∈ hs, isFullBroNB h = true → h.share = 0 := by
    intro h hh hp
    simp only [isFullBroNB, Bool.and_eq_true, decide_eq_true_eq] at hp
    exact z h hh (by simpa using hp.2) (Or.inr (Or.inl hp.1))
  have zp : ∀ h ∈ hs, isPatBroNB h = true → h.share = 0 := by
    intro h hh hp
    simp only [isPatBroNB, Bool.and_eq_true, decide_eq_true_eq] at hp
    exact z h hh (by simpa using hp.2) (Or.inr (Or.inr hp.1))
  by_cases c1 : (!(hs.filter isSonNB).isEmpty ||
                 !(hs.filter isDaughterNB0).isEmpty) = true
  · have hgrp : consumingGroup hs rem = 1 := by
      simp [consumingGroup, c1]
    have hdist : distribute_asaba hs rem = hs.map (fun h =>
        if isSonNB h then { h with share :=
          rem / (((hs.filter isSonNB).length * 2 +
                  (hs.filter isDaughterNB0).length : Nat) : ℚ) * 2 }
        else if isDaughterNB0 h then { h with share :=
          rem / (((hs.filter isSonNB).length * 2 +
                  (hs.filter isDaughterNB0).length : Nat) : ℚ) }
        else h) := by
      simp only [distribute_asaba]
      rw [if_pos c1]
    have hn : (hs.filter isSonNB).length * 2 + (hs.filter isDaughterNB0).length ≠ 0 := by
      rw [Bool.or_eq_true, Bool.not_eq_true', Bool.not_eq_true'] at c1
      rcases c1 with hc | hc
      · have := length_pos_of_isEmpty_false hc
        omega
      · have := length_pos_of_isEmpty_false hc
        omega
    constructor
    · rw [hdist, sumShares_units_map isSonNB isDaughterNB0 _ hs son_not_daughter
        za (fun h hh hp => isDaughterNB0_share hp)]
      rw [List.countP_eq_length_filter, List.countP_eq_length_filter]
      rw [add_assoc, units_algebra rem _ _ hn]
    · intro pr hpr
      rw [hgrp]
      rw [hdist] at hpr
      have he := zip_map_cases _ hs pr hpr
      by_cases ha : isSonNB pr.2 = true
      · exact Or.inr (by simp [memberOfGroup, ha])
      · by_cases hb : isDaughterNB0 pr.2 = true
        · exact Or.inr (by simp [memberOfGroup, hb])
        · exact Or.inl (by rw [he]; simp [ha, hb])
  · by_cases c2 : ((hs.find? (fun h => decide (h.relation = "الأب") &&
        !h.is_blocked)).isSome && decide (rem > 0)) = true
    · have hgrp : consumingGroup hs rem = 2 := by
        simp only [consumingGroup]
        rw [if_neg c1, if_pos c2]
      have hdist : distribute_asaba hs rem =
          updateFirst (fun h => decide (h.relation = "الأب") && !h.is_blocked)
            (asabaAugment rem) hs := by
        simp only [distribute_asaba]
        rw [if_neg c1, if_pos c2]
      have he : ∃ h ∈ hs, (decide (h.relation = "الأب") && !h.is_blocked) = true := by
        rw [Bool.and_eq_true] at c2
        obtain ⟨hf, -⟩ := c2
        obtain ⟨x, hfind⟩ := Option.isSome_iff_exists.mp hf
        have hpx := List.find?_some hfind
        exact ⟨x, List.mem_of_find?_eq_some hfind, hpx⟩
      constructor
      · rw [hdist, sumShares_updateFirst _ rem hs he p]
      · intro pr hpr
        rw [hgrp]
        rw [hdist] at hpr
        rcases zip_updateFirst_cases _ _ hs pr hpr with hc | ⟨hp2, -⟩
        · exact Or.inl hc
        · exact Or.inr (by simpa [memberOfGroup] using hp2)
    · by_cases c3 : ((hs.find? (fun h => decide (h.relation = "الجد") &&
          !h.is_blocked)).isSome && decide (rem > 0)) = true
      · have hgrp : consumingGroup hs rem = 3 := by
          simp only [consumingGroup]
          rw [if_neg c1, if_neg c2, if_pos c3]
        have hdist : distribute_asaba hs rem =
            updateFirst (fun h => decide (h.relation = "الجد") && !h.is_blocked)
              (asabaAugment rem) hs := by
          simp only [distribute_asaba]
          rw [if_neg c1, if_neg c2, if_pos c3]
        have he : ∃ h ∈ hs, (decide (h.relation = "الجد") && !h.is_blocked) = true := by
          rw [Bool.and_eq_true] at c3
          obtain ⟨hf, -⟩ := c3
          obtain ⟨x, hfind⟩ := Option.isSome_iff_exists.mp hf
          have hpx := List.find?_some hfind
          exact ⟨x, List.mem_of_find?_eq_some hfind, hpx⟩
        constructor
        · rw [hdist, sumShares_updateFirst _ rem hs he p]
        · intro pr hpr
          rw [hgrp]
          rw [hdist] at hpr
          rcases zip_updateFirst_cases _ _ hs pr hpr with hc | ⟨hp2, -⟩
          · exact Or.inl hc
          · exact Or.inr (by simpa [memberOfGroup] using hp2)
      · by_cases c4 : (!(hs.filter isFullBroNB).isEmpty ||
                       !(hs.filter isFullSisNB0).isEmpty) = true
        · have hgrp : consumingGroup hs rem = 4 := by
            simp only [consumingGroup]
            rw [if_neg c1, if_neg c2, if_neg c3, if_pos c4]
          have hdist : distribute_asaba hs rem = hs.map (fun h =>
              if isFullBroNB h then { h with share :=
                rem / (((hs.filter isFullBroNB).length * 2 +
                        (hs.filter isFullSisNB0).length : Nat) : ℚ) * 2 }
              else if isFullSisNB0 h then { h with share :=
                rem / (((hs.filter isFullBroNB).length * 2 +
                        (hs.filter isFullSisNB0).length : Nat) : ℚ) }
              else h) := by
            simp only [distribute_asaba]
            rw [if_neg c1, if_neg c2, if_neg c3, if_pos c4]
          have hn : (hs.filter isFullBroNB).length * 2 +
              (hs.filter isFullSisNB0).length ≠ 0 := by
            rw [Bool.or_eq_true, Bool.not_eq_true', Bool.not_eq_true'] at c4
            rcases c4 with hc | hc
            · have := length_pos_of_isEmpty_false hc
              omega
            · have := length_pos_of_isEmpty_false hc
              omega
          constructor
          · rw [hdist, sumShares_units_map isFullBroNB isFullSisNB0 _ hs
              fullbro_not_fullsis zf (fun h hh hp => isFullSisNB0_share hp)]
            rw [List.countP_eq_length_filter, List.countP_eq_length_filter]
            rw [add_assoc, units_algebra rem _ _ hn]
          · intro pr hpr
            rw [hgrp]
            rw [hdist] at hpr
            have he := zip_map_cases _ hs pr hpr
            by_cases ha : isFullBroNB pr.2 = true
            · exact Or.inr (by simp [memberOfGroup, ha])
            · by_cases hb : isFullSisNB0 pr.2 = true
              · exact Or.inr (by simp [memberOfGroup, hb])
              · exact Or.inl (by rw [he]; simp [ha, hb])
        · by_cases c5 : (!(hs.filter isPatBroNB).isEmpty ||
                         !(hs.filter isPatSisNB0).isEmpty) = true
          · have hgrp : consumingGroup hs rem = 5 := by
              simp only [consumingGroup]
              rw [if_neg c1, if_neg c2, if_neg c3, if_neg c4, if_pos c5]
            have hdist : distribute_asaba hs rem = hs.map (fun h =>
                if isPatBroNB h then { h with share :=
                  rem / (((hs.filter isPatBroNB).length * 2 +
                          (hs.filter isPatSisNB0).length : Nat) : ℚ) * 2 }
                else if isPatSisNB0 h then { h with share :=
                  rem / (((hs.filter isPatBroNB).length * 2 +
                          (hs.filter isPatSisNB0).length : Nat) : ℚ) }
                else h) := by
              simp only [distribute_asaba]
              rw [if_neg c1, if_neg c2, if_neg c3, if_neg c4, if_pos c5]
            have hn : (hs.filter isPatBroNB).length * 2 +
                (hs.filter isPatSisNB0).length ≠ 0 := by
              rw [Bool.or_eq_true, Bool.not_eq_true', Bool.not_eq_true'] at c5
              rcases c5 with hc | hc
              · have := length_pos_of_isEmpty_false hc
                omega
              · have := length_pos_of_isEmpty_false hc
                omega
            constructor
            · rw [hdist, sumShares_units_map isPatBroNB isPatSisNB0 _ hs
                patbro_not_patsis zp (fun h hh hp => isPatSisNB0_share hp)]
              rw [List.countP_eq_length_filter, List.countP_eq_length_filter]
              rw [add_assoc, units_algebra rem _ _ hn]
            · intro pr hpr
              rw [hgrp]
              rw [hdist] at hpr
              have he := zip_map_cases _ hs pr hpr
              by_cases ha : isPatBroNB pr.2 = true
              · exact Or.inr (by simp [memberOfGroup, ha])
              · by_cases hb : isPatSisNB0 pr.2 = true
                · exact Or.inr (by simp [memberOfGroup, hb])
                · exact Or.inl (by rw [he]; simp [ha, hb])
          · exfalso
            apply g
            simp only [consumingGroup]
            rw [if_neg c1, if_neg c2, if_neg c3, if_neg c4, if_neg c5]

/-! Concrete evaluations.  Batteries marks the `Rat` arithmetic
operations `@[irreducible]`; the `decide` calls below need them to
reduce, so their reducibility is restored locally. -/

attribute [local semireducible] Rat.add Rat.mul Rat.sub Rat.inv

set_option maxRecDepth 10000

/-- Witness for C1 at the canonical heir list [wife, father, mother]. -/
theorem umariyyatayn_override_witness :
    (((apply_hijab_rules
        [{ name := "الزوجة", relation := "الزوجة", gender := "أنثى" },
         { name := "الأب", relation := "الأب", gender := "ذكر" },
         { name := "الأم", relation := "الأم", gender := "أنثى" }]).filter
        (fun h => !h.is_blocked)).length = 3) ∧
    ((relSetEq (nonBlockedRels (apply_hijab_rules
        [{ name := "الزوجة", relation := "الزوجة", gender := "أنثى" },
         { name := "الأب", relation := "الأب", gender := "ذكر" },
         { name := "الأم", relation := "الأم", gender := "أنثى" }]))
        ["الزوجة", "الأب", "الأم"] = true →
      calculate
        [{ name := "الزوجة", relation := "الزوجة", gender := "أنثى" },
         { name := "الأب", relation := "الأب", gender := "ذكر" },
         { name := "الأم", relation := "الأم", gender := "أنثى" }] =
      solve_umariyyatayn (apply_hijab_rules
        [{ name := "الزوجة", relation := "الزوجة", gender := "أنثى" },
         { name := "الأب", relation := "الأب", gender := "ذكر" },
         { name := "الأم", relation := "الأم", gender := "أنثى" }]) ∧
      (calculate_fixed_shares (apply_hijab_rules
        [{ name := "الزوجة", relation := "الزوجة", gender := "أنثى" },
         { name := "الأب", relation := "الأب", gender := "ذكر" },
         { name := "الأم", relation := "الأم", gender := "أنثى" }])).2 = 1 ∧
      (∀ h ∈ calculate
        [{ name := "الزوجة", relation := "الزوجة", gender := "أنثى" },
         { name := "الأب", relation := "الأب", gender := "ذكر" },
         { name := "الأم", relation := "الأم", gender := "أنثى" }],
        (h.relation = "الزوجة" → h.share = 1/4) ∧
        (h.relation = "الأم" → h.share = 1/4) ∧
        (h.relation = "الأب" → h.share = 1/2))) ∧
    (relSetEq (nonBlockedRels (apply_hijab_rules
        [{ name := "الزوجة", relation := "الزوجة", gender := "أنثى" },
         { name := "الأب", relation := "الأب", gender := "ذكر" },
         { name := "الأم", relation := "الأم", gender := "أنثى" }]))
        ["الزوج", "الأب", "الأم"] = true →
      calculate
        [{ name := "الزوجة", relation := "الزوجة", gender := "أنثى" },
         { name := "الأب", relation := "الأب", gender := "ذكر" },
         { name := "الأم", relation := "الأم", gender := "أنثى" }] =
      solve_umariyyatayn (apply_hijab_rules
        [{ name := "الزوجة", relation := "الزوجة", gender := "أنثى" },
         { name := "الأب", relation := "الأب", gender := "ذكر" },
         { name := "الأم", relation := "الأم", gender := "أنثى" }]) ∧
      (calculate_fixed_shares (apply_hijab_rules
        [{ name := "الزوجة", relation := "الزوجة", gender := "أنثى" },
         { name := "الأب", relation := "الأب", gender := "ذكر" },
         { name := "الأم", relation := "الأم", gender := "أنثى" }])).2 = 1 ∧
      (∀ h ∈ calculate
        [{ name := "الزوجة", relation := "الزوجة", gender := "أنثى" },
         { name := "الأب", relation := "الأب", gender := "ذكر" },
         { name := "الأم", relation := "الأم", gender := "أنثى" }],
        (h.relation = "الزوج" → h.share = 1/2) ∧
        (h.relation = "الأم" → h.share = 1/6) ∧
        (h.relation = "الأب" → h.share = 1/3)))) :=
  ⟨by decide,
   umariyyatayn_override
     [{ name := "الزوجة", relation := "الزوجة", gender := "أنثى" },
      { name := "الأب", relation := "الأب", gender := "ذكر" },
      { name := "الأم", relation := "الأم", gender := "أنثى" }] (by decide)⟩

/-- Claim C2, counterexample: on the source's own test input
"ترك زوجة وولدان وبنتان" ("left a wife and two sons and two daughters")
the pipeline does not give each son 7/48 and each daughter 7/96 — the
sons receive 7/24 each and the daughters 7/48 each. -/
theorem e1_claimed_shares_false :
    ¬ (∀ h ∈ calculate (detect_heirs "ترك زوجة وولدان وبنتان"),
        (h.relation = "الابن" → h.share = 7/48) ∧
        (h.relation = "البنت" → h.share = 7/96)) := by decide

/-- Claim C2, amended: for "ترك زوجة وولدان وبنتان" the full pipeline
(detect then calculate) yields wife = 1/8, each son = 7/24, each
daughter = 7/48, nobody blocked, and the non-blocked shares sum to 1. -/
theorem e1_full_pipeline :
    ((calculate (detect_heirs "ترك زوجة وولدان وبنتان")).map
      (fun h => (h.name, h.relation, h.is_blocked, h.share))) =
      [("الزوجة", "الزوجة", false, (1 : ℚ)/8),
       ("الابن 1", "الابن", false, (7 : ℚ)/24),
       ("الابن 2", "الابن", false, (7 : ℚ)/24),
       ("البنت 1", "البنت", false, (7 : ℚ)/48),
       ("البنت 2", "البنت", false, (7 : ℚ)/48)] ∧
    sumShares ((calculate (detect_heirs "ترك زوجة وولدان وبنتان")).filter
        (fun h => !h.is_blocked)) = 1 := by decide

/-- Claim C7, counterexample: the text "ابن الأخ" — exactly the token
sequence "ibn al-akh" with its definite article — does emit a son heir:
the bare-son pattern's lookahead excludes only "ابن أخ" (no article)
and "ابن الابن", so "ابن" followed by "الأخ" matches. -/
theorem ibn_alakh_emits_son :
    ((detect_heirs "ابن الأخ").map (fun h => h.relation)) = ["الابن"] := by decide

/-- Claim C7, amended: without the definite article, "ابن أخ" emits no
heir at all (in particular no son); "بنت ابن" emits exactly the
son's-daughter kind and no bare daughter; and "أخ لأب" emits exactly
the paternal brother and no father heir. -/
theorem disambiguation_amended :
    ((detect_heirs "ابن أخ").map (fun h => h.relation)) = [] ∧
    ((detect_heirs "بنت ابن").map (fun h => h.relation)) = ["بنت_الابن"] ∧
    ((detect_heirs "أخ لأب").map (fun h => h.relation)) = ["الأخ_لأب"] := by decide

/-- Claim C5, counterexample: with a father present, the exclusion pass
leaves a maternal brother (relation "الأخ_لأم") unblocked — rule 2 only
blocks the full and paternal sibling kinds. -/
theorem maternal_sibling_not_blocked :
    (apply_hijab_rules
      [{ name := "الأب", relation := "الأب", gender := "ذكر" },
       { name := "الأخ لأم", relation := "الأخ_لأم", gender := "ذكر" }]).map
      (fun h => (h.relation, h.is_blocked)) =
      [("الأب", false), ("الأخ_لأم", false)] := by decide

/-- Claim C6, counterexample: heirs of a kind the calculator assigns no
share to can still change another heir's share.  Two nephews
(relation "ابن_الأخ") end unblocked with share 0, but their presence
turns the mother's share from 1/3 into 1/6, because the mother's
sibling count is the substring test "أخ" on the relation tag and
"ابن_الأخ" contains "أخ". -/
theorem nephews_change_mother_share :
    ((calculate
      [{ name := "الأم", relation := "الأم", gender := "أنثى" },
       { name := "ابن الأخ 1", relation := "ابن_الأخ", gender := "ذكر" },
       { name := "ابن الأخ 2", relation := "ابن_الأخ", gender := "ذكر" }]).map
        (fun h => (h.relation, h.is_blocked, h.share)) =
      [("الأم", false, (1 : ℚ)/6),
       ("ابن_الأخ", false, 0), ("ابن_الأخ", false, 0)]) ∧
    ((calculate [{ name := "الأم", relation := "الأم", gender := "أنثى" }]).map
        (fun h => (h.relation, h.is_blocked, h.share)) =
      [("الأم", false, (1 : ℚ)/3)]) := by decide

/-- Claim C9, counterexample: a whole-number share is rendered without
the denominator.  A sole son takes the entire estate and his result
entry carries the fraction string "1", not "1/1". -/
theorem whole_share_rendered_without_denominator :
    calculate_results [{ name := "الابن", relation := "الابن", gender := "ذكر" }] =
      [("الابن", ResVal.entry "1" "الابن")] ∧
    ("1" : String) ≠ "1/1" := by decide

/-- Witness for C4 at a lone fresh son and residue 1/2: the son's group
consumes exactly the residue. -/
theorem residue_partition_witness :
    (0 < (1 : ℚ)/2 ∧
     (∀ h ∈ ([{ name := "الابن", relation := "الابن", gender := "ذكر" }] : List Heir),
        h.is_blocked = false →
        (h.relation = "الابن" ∨ h.relation = "الأخ_الشقيق" ∨
         h.relation = "الأخ_لأب") → h.share = 0) ∧
     consumingGroup [{ name := "الابن", relation := "الابن", gender := "ذكر" }]
       ((1 : ℚ)/2) ≠ 0) ∧
    (sumShares (distribute_asaba
        [{ name := "الابن", relation := "الابن", gender := "ذكر" }] ((1 : ℚ)/2)) =
      sumShares [{ name := "الابن", relation := "الابن", gender := "ذكر" }] +
        (1 : ℚ)/2 ∧
     (∀ pr ∈ (distribute_asaba
          [{ name := "الابن", relation := "الابن", gender := "ذكر" }]
          ((1 : ℚ)/2)).zip
          [{ name := "الابن", relation := "الابن", gender := "ذكر" }],
        pr.1 = pr.2 ∨
        memberOfGroup (consumingGroup
          [{ name := "الابن", relation := "الابن", gender := "ذكر" }]
          ((1 : ℚ)/2)) pr.2 = true)) :=
  ⟨⟨by decide, by decide, by decide⟩,
   residue_partition
     [{ name := "الابن", relation := "الابن", gender := "ذكر" }] ((1 : ℚ)/2)
     (by decide) (by decide) (by decide) (by decide)⟩

/-- Witness for C9's amended statement: a lone wife's entry renders
1/4 with its denominator. -/
theorem results_fraction_rendering_witness :
    (("الزوجة", ResVal.entry "1/4" "الزوجة") ∈ calculate_results
      [{ name := "الزوجة", relation := "الزوجة", gender := "أنثى" }]) ∧
    (∃ h ∈ calculate [{ name := "الزوجة", relation := "الزوجة", gender := "أنثى" }],
      h.is_blocked = false ∧ "الزوجة" = h.name ∧ "الزوجة" = h.relation ∧
      "1/4" = fractionStr h.share ∧
      (h.share.den ≠ 1 →
        "1/4" = toString h.share.num ++ "/" ++ toString h.share.den) ∧
      (h.share.den = 1 → "1/4" = toString h.share.num)) :=
  ⟨by decide,
   results_fraction_rendering
     [{ name := "الزوجة", relation := "الزوجة", gender := "أنثى" }]
     "الزوجة" "1/4" "الزوجة" (by decide)⟩

end Mawarith
